import Mathlib

/-!
Shallow embedding of the volumetric gain engine of `voxblox_ros/src/tsdf_server.cc`
(classes `SensorParamsBase` and `TsdfServer`).

Real-valued quantities are modelled over `ℚ`.  The transcendental helpers of the
source (`exp`, `tan`) are abstracted as function parameters (`decayFn`,
standing for `fun z2 => exp (-area_factor_ * z2)`, and `tanFn`, standing for
`tan`): every claim settled here is about the control flow, bookkeeping and
arithmetic structure of the code, none depends on the analytic values of these
functions.  The voxel layer (owned by the external map collaborator, per the
spec an excluded component accessed through `getVoxelPtrByGlobalIndex`) is
modelled as an association list from global indices to voxels.
-/

namespace Voxblox

/-- Global voxel index, `voxblox::GlobalIndex` (a 3-vector of integers). -/
abbrev GlobalIndex := ℤ × ℤ × ℤ

/-- A 3-D point. -/
abbrev Pt := ℚ × ℚ × ℚ

/-- The per-voxel record of the map (`voxblox::TsdfVoxel` as used by
`tsdf_server.cc`): signed distance, integration weight, the interestingness
scalar, the Manhattan propagation distance, and the two transient flags. -/
structure TsdfVoxel where
  distance : ℚ
  weight : ℚ
  interestingness : ℚ
  interesting_distance : ℤ
  in_queue : Bool
  is_observed : Bool
deriving DecidableEq, Repr

/-- The voxel layer: a finite association from global indices to voxels.
`sdf_layer_->getVoxelPtrByGlobalIndex` returning `nullptr` is modelled by a
missing key. -/
abbrev Layer := List (GlobalIndex × TsdfVoxel)

/-- `sdf_layer_->getVoxelPtrByGlobalIndex(g)`: first binding of `g`, if any. -/
def getVoxelPtrByGlobalIndex (L : Layer) (g : GlobalIndex) : Option TsdfVoxel :=
  match L with
  | [] => none
  | (k, v) :: rest => if k = g then some v else getVoxelPtrByGlobalIndex rest g

/-- `TsdfServer::checkUnknownStatus`: true iff the voxel is absent (`nullptr`)
or its weight is below `1e-6`. -/
def checkUnknownStatus (voxel : Option TsdfVoxel) : Bool :=
  match voxel with
  | none => true
  | some v => decide (v.weight < 1/1000000)

/-- `enum VoxelStatus { kUnknown = 0, kOccupied, kFree }`. -/
inductive VoxelStatus where
  | kUnknown
  | kOccupied
  | kFree
deriving DecidableEq, Repr

/-- The three-way classification used by `getScanStatus`'s branch structure:
unknown when `checkUnknownStatus` holds, else free when
`distance > voxel_size + 1e-6` (the `distance_thres` of the source), else
occupied. -/
def classifyVoxel (voxel_size : ℚ) (voxel : Option TsdfVoxel) : VoxelStatus :=
  if checkUnknownStatus voxel then .kUnknown
  else
    match voxel with
    | none => .kUnknown
    | some v =>
      if v.distance > voxel_size + 1/1000000 then .kFree else .kOccupied

/-- `voxblox::getCenterPointFromGridIndex`: voxel center of a global index. -/
def getCenterPointFromGridIndex (g : GlobalIndex) (voxel_size : ℚ) : Pt :=
  (((g.1 : ℚ) + 1/2) * voxel_size, ((g.2.1 : ℚ) + 1/2) * voxel_size,
   ((g.2.2 : ℚ) + 1/2) * voxel_size)

/-- Squared Euclidean distance between two points (the `z2` of the source). -/
def sqDist (a b : Pt) : ℚ :=
  (a.1 - b.1) * (a.1 - b.1) + (a.2.1 - b.2.1) * (a.2.1 - b.2.1) +
    (a.2.2 - b.2.2) * (a.2.2 - b.2.2)

/-- Apply `f` to the voxel stored at index `g` (a through-pointer field write
of the source). -/
def mapVoxelAt (f : TsdfVoxel → TsdfVoxel) (L : Layer) (g : GlobalIndex) : Layer :=
  L.map (fun p => if p.1 = g then (p.1, f p.2) else p)

/-- Set `is_observed := true` on the voxel at index `g`. -/
def setIsObserved (L : Layer) (g : GlobalIndex) : Layer :=
  mapVoxelAt (fun v => { v with is_observed := true }) L g

/-- Clear `is_observed` on the voxel at index `g` (the flag-reset drain body). -/
def clearIsObserved (L : Layer) (g : GlobalIndex) : Layer :=
  mapVoxelAt (fun v => { v with is_observed := false }) L g

/-- The mutable state threaded through one `getScanStatus` call: the layer,
the `observed_voxels` FIFO of the server, and the local counters and
accumulated interestingness. -/
structure ScanState where
  layer : Layer
  observed_voxels : List GlobalIndex
  num_unknown : ℕ
  num_free : ℕ
  num_occupied : ℕ
  gain : ℚ
deriving DecidableEq, Repr

/-- The gain contribution of a voxel `v` at index `g`:
`v.interestingness * exp(-area_factor_ * z2)`, with the exponential decay
abstracted as `decayFn`. -/
def gainContrib (decayFn : ℚ → ℚ) (voxel_size : ℚ) (pos : Pt) (g : GlobalIndex)
    (v : TsdfVoxel) : ℚ :=
  v.interestingness * decayFn (sqDist (getCenterPointFromGridIndex g voxel_size) pos)

/-- One iteration of the `while (ray_caster.nextRayIndex(...))` loop body of
`TsdfServer::getScanStatus`, for the index `g`.  Returns the updated state and
whether the ray is terminated (the `break` in the occupied branch). -/
def scanVoxel (voxel_size : ℚ) (decayFn : ℚ → ℚ) (pos : Pt) (s : ScanState)
    (g : GlobalIndex) : ScanState × Bool :=
  let voxel := getVoxelPtrByGlobalIndex s.layer g
  if checkUnknownStatus voxel then
    match voxel with
    | none => (s, false)
    | some v =>
      if v.is_observed then (s, false)
      else
        ({ s with
            layer := setIsObserved s.layer g
            observed_voxels := s.observed_voxels ++ [g]
            num_unknown := s.num_unknown + 1
            gain := s.gain + gainContrib decayFn voxel_size pos g v }, false)
  else
    match voxel with
    | none => (s, false)
    | some v =>
      if v.distance > voxel_size + 1/1000000 then
        (if v.is_observed then s
         else
           { s with
              layer := setIsObserved s.layer g
              observed_voxels := s.observed_voxels ++ [g]
              num_free := s.num_free + 1 }, false)
      else
        (if v.is_observed then s
         else
           { s with
              layer := setIsObserved s.layer g
              observed_voxels := s.observed_voxels ++ [g]
              num_occupied := s.num_occupied + 1
              gain := s.gain + gainContrib decayFn voxel_size pos g v }, true)

/-- The whole per-ray loop of `getScanStatus`: walk the raycast index sequence
in order, stopping when a voxel terminates the ray. -/
def scanRay (voxel_size : ℚ) (decayFn : ℚ → ℚ) (pos : Pt) :
    ScanState → List GlobalIndex → ScanState
  | s, [] => s
  | s, g :: rest =>
    match scanVoxel voxel_size decayFn pos s g with
    | (s1, stop) => if stop then s1 else scanRay voxel_size decayFn pos s1 rest

/-- `TsdfServer::getScanStatus`: iterate the per-ray loop over every endpoint's
raycast index sequence.  The raycasting primitive is an excluded collaborator,
so each ray is given directly by its (finite, near-to-far) index sequence. -/
def getScanStatus (voxel_size : ℚ) (decayFn : ℚ → ℚ) (pos : Pt)
    (rays : List (List GlobalIndex)) (s : ScanState) : ScanState :=
  rays.foldl (scanRay voxel_size decayFn pos) s

/-- The initial scan state of one `computeVolumetricGainRayModelNoBound` call:
counters and gain reset to zero (`vgain.reset()` and the local zero
initialisations of `getScanStatus`), queue as drained by the caller. -/
def initScanState (L : Layer) : ScanState :=
  { layer := L, observed_voxels := [], num_unknown := 0, num_free := 0,
    num_occupied := 0, gain := 0 }

/-- The `while (!observed_voxels->empty())` flag-reset drain of
`calcInfoGainCallback` / `baselineInfoGainCallback`: clear `is_observed` for
every queued index. -/
def drainObserved (L : Layer) (q : List GlobalIndex) : Layer :=
  q.foldl clearIsObserved L

/-- The bookkeeping invariant of one gain query against a base layer `L0`:
draining the queued flags restores `L0` exactly, and every queued index holds
a voxel currently flagged observed. -/
def ScanInv (L0 : Layer) (s : ScanState) : Prop :=
  List.foldl clearIsObserved s.layer s.observed_voxels = L0 ∧
  ∀ a ∈ s.observed_voxels, ∃ w,
    getVoxelPtrByGlobalIndex s.layer a = some w ∧ w.is_observed = true

/-! ### Interestingness diffusion (`TsdfServer::spreadInterestingness`) -/

/-- The 26-connected neighborhood of a global index
(`voxblox::Neighborhood<>::getFromGlobalIndex`, default 26-connectivity). -/
def neighbors26 (g : GlobalIndex) : List GlobalIndex :=
  ([-1, 0, 1].flatMap fun dx => [-1, 0, 1].flatMap fun dy => [-1, 0, 1].map fun dz =>
    (g.1 + dx, g.2.1 + dy, g.2.2 + dz)).filter (fun n => n ≠ g)

/-- Overwrite `interesting_distance` / `interestingness` of the voxel at `g`
(the neighbor-update assignments of `spreadInterestingness`). -/
def updateInteresting (L : Layer) (g : GlobalIndex) (d : ℤ) (i : ℚ) : Layer :=
  mapVoxelAt (fun v => { v with interesting_distance := d, interestingness := i }) L g

/-- Set `in_queue := true` on the voxel at `g`. -/
def setInQueue (L : Layer) (g : GlobalIndex) : Layer :=
  mapVoxelAt (fun v => { v with in_queue := true }) L g

/-- The mutable state of one `spreadInterestingness` run: the layer and the
`interesting_voxel_idx` FIFO, plus a ghost log of every push performed by the
loop, recording for each pushed neighbor its `interesting_distance` and
`in_queue` flag as read at the moment of the push. -/
structure SpreadState where
  layer : Layer
  queue : List GlobalIndex
  pushLog : List (GlobalIndex × ℤ × Bool)
deriving DecidableEq, Repr

/-- The neighbor voxel after the conditional distance/interestingness update
(the value read back through the neighbor pointer after the two assignments). -/
def neighborUpdated (decay_lambda : ℚ) (parent nv : TsdfVoxel) : TsdfVoxel :=
  if nv.interesting_distance > parent.interesting_distance + 1 then
    { nv with interesting_distance := parent.interesting_distance + 1,
              interestingness := decay_lambda * parent.interestingness }
  else nv

/-- The inner per-neighbor body of `spreadInterestingness`: skip absent
neighbors, update distance/interestingness of unknown neighbors found via a
strictly longer path, then enqueue when not `in_queue` and strictly inside the
`decay_distance_` cutoff.  A ghost `pushLog` entry records the neighbor's
`interesting_distance` and `in_queue` flag as read at the moment of the push. -/
def processNeighbor (decay_lambda decay_distance : ℚ) (parent : TsdfVoxel)
    (st : SpreadState) (n : GlobalIndex) : SpreadState :=
  match getVoxelPtrByGlobalIndex st.layer n with
  | none => st
  | some nv =>
    if checkUnknownStatus (some nv) then
      let nv1 := neighborUpdated decay_lambda parent nv
      let layer1 :=
        if nv.interesting_distance > parent.interesting_distance + 1 then
          updateInteresting st.layer n (parent.interesting_distance + 1)
            (decay_lambda * parent.interestingness)
        else st.layer
      if !nv1.in_queue ∧ (nv1.interesting_distance : ℚ) < decay_distance then
        { layer := setInQueue layer1 n
          queue := st.queue ++ [n]
          pushLog := st.pushLog ++ [(n, nv1.interesting_distance, nv1.in_queue)] }
      else
        { st with layer := layer1 }
    else st

/-- One iteration of the outer `while (!interesting_voxel_idx->empty())` loop:
pop the front parent and fold the neighbor body over its 26 neighbors.  The
source dereferences the parent pointer unconditionally; an absent parent is
undefined behaviour there and is modelled as a skip. -/
def processParent (decay_lambda decay_distance : ℚ) (st : SpreadState) : SpreadState :=
  match st.queue with
  | [] => st
  | g :: rest =>
    let st0 : SpreadState := { st with queue := rest }
    match getVoxelPtrByGlobalIndex st.layer g with
    | none => st0
    | some parent =>
      (neighbors26 g).foldl (processNeighbor decay_lambda decay_distance parent) st0

/-- The outer loop with explicit fuel. -/
def spreadAux (decay_lambda decay_distance : ℚ) : ℕ → SpreadState → SpreadState
  | 0, st => st
  | fuel + 1, st =>
    if st.queue.isEmpty then st
    else spreadAux decay_lambda decay_distance fuel (processParent decay_lambda decay_distance st)

/-- Termination measure of the loop: queue length plus the number of layer
entries whose `in_queue` flag is still clear. -/
def spreadMeasure (st : SpreadState) : ℕ :=
  st.queue.length + (st.layer.filter (fun p => !p.2.in_queue)).length

/-- `TsdfServer::spreadInterestingness`: run the loop to completion (the
measure is a proven upper bound on the number of iterations, see
`spreadAux_queue_empty`). -/
def spreadInterestingness (decay_lambda decay_distance : ℚ) (st : SpreadState) : SpreadState :=
  spreadAux decay_lambda decay_distance (spreadMeasure st) st

/-! ### Sensor frustum (`SensorParamsBase`) -/

/-- `SensorParamsBase`: ranges, `[horizontal, vertical]` FOV and resolution. -/
structure SensorParamsBase where
  min_range : ℚ
  max_range : ℚ
  fov : ℚ × ℚ
  resolution : ℚ × ℚ
deriving DecidableEq, Repr

/-- Number of iterations of the half-open stepping loop
`for (a = lo; a < hi; a += step)` with a positive step. -/
def stepCount (lo hi step : ℚ) : ℕ :=
  if 0 < step then ⌈(hi - lo) / step⌉₊ else 0

/-- The angles visited by the half-open stepping loop, computed with fuel
(`stepCount` is proven to be enough fuel in `angleListAux_closed_form`). -/
def angleListAux (hi step : ℚ) : ℕ → ℚ → List ℚ
  | 0, _ => []
  | fuel + 1, lo => if lo < hi then lo :: angleListAux hi step fuel (lo + step) else []

/-- All angles visited by `for (a = lo; a < hi; a += step)`. -/
def angleList (lo hi step : ℚ) : List ℚ :=
  angleListAux hi step (stepCount lo hi step) lo

/-- The endpoints, width and height computed by `SensorParamsBase::initialize`.
`tanFn` abstracts `tan`, `defaultRes` the `1.0 * M_PI / 180.0` fallback
substituted for a non-positive resolution component.  The width is the inner
step count of the first outer iteration (the `w`/`width` bookkeeping of the
source), the height the outer step count. -/
structure FrustumResult where
  frustum_endpoints_B : List Pt
  width : ℕ
  height : ℕ
deriving DecidableEq, Repr

/-- `SensorParamsBase::initialize` (named `initializeEndpoints` here): choose
the resolutions with the non-positive fallback, run the two nested half-open
stepping loops, and record endpoint `(max_range, max_range·tan dh,
max_range·tan dv)` for every (dv, dh) pair. -/
def initializeEndpoints (tanFn : ℚ → ℚ) (defaultRes : ℚ) (P : SensorParamsBase) :
    FrustumResult :=
  let v_res := if P.resolution.2 > 0 then P.resolution.2 else defaultRes
  let h_res := if P.resolution.1 > 0 then P.resolution.1 else defaultRes
  let dvs := angleList (-(P.fov.2 / 2)) (P.fov.2 / 2) v_res
  let dhs := angleList (-(P.fov.1 / 2)) (P.fov.1 / 2) h_res
  let rows := dvs.map (fun dv =>
    dhs.map (fun dh => (P.max_range, P.max_range * tanFn dh, P.max_range * tanFn dv)))
  { frustum_endpoints_B := rows.flatten
    width := match rows with | [] => 0 | r :: _ => r.length
    height := dvs.length }

/-! ### Baseline trajectory-library evaluation (`baselineInfoGainCallback`) -/

/-- `kNumTimestep` of the header. -/
def kNumTimestep : ℕ := 15

/-- A 6-DOF state vector `(x, y, z, roll, pitch, yaw)`. -/
abbrev StateVec := ℚ × ℚ × ℚ × ℚ × ℚ × ℚ

/-- The state vector built by `baselineInfoGainCallback` for entry timestep
`idx2`: the rotated/translated position, zero roll and pitch, and yaw equal to
the robot yaw plus the entry's stored yaw at that timestep. -/
def baselineStateVec (rotPos : ℕ → Pt) (robotYaw : ℚ) (storedYaw : ℕ → ℚ)
    (idx2 : ℕ) : StateVec :=
  ((rotPos idx2).1, (rotPos idx2).2.1, (rotPos idx2).2.2, 0, 0,
    robotYaw + storedYaw idx2)

/-- The inner timestep loop of `baselineInfoGainCallback` for one library
entry: walk `idx2` over `0 ..< kNumTimestep`, and only when
`idx2 ∈ {2, 6, 10, 14}` evaluate the volumetric gain (abstracted as `G`) at
the constructed state and add it to the running sum; a ghost log records the
timesteps actually evaluated. -/
def baselineEntryGain (G : StateVec → ℚ) (rotPos : ℕ → Pt) (robotYaw : ℚ)
    (storedYaw : ℕ → ℚ) : ℚ × List ℕ :=
  (List.range kNumTimestep).foldl
    (fun acc idx2 =>
      if idx2 = 2 ∨ idx2 = 6 ∨ idx2 = 10 ∨ idx2 = 14 then
        (acc.1 + G (baselineStateVec rotPos robotYaw storedYaw idx2), acc.2 ++ [idx2])
      else acc)
    (0, [])

/-! ### Basic lemmas about layer lookups and per-key updates -/

theorem getVoxel_cons (k : GlobalIndex) (v : TsdfVoxel) (rest : Layer) (g : GlobalIndex) :
    getVoxelPtrByGlobalIndex ((k, v) :: rest) g =
      if k = g then some v else getVoxelPtrByGlobalIndex rest g := rfl

theorem mapVoxelAt_cons (f : TsdfVoxel → TsdfVoxel) (k : GlobalIndex) (v : TsdfVoxel)
    (rest : Layer) (g : GlobalIndex) :
    mapVoxelAt f ((k, v) :: rest) g =
      (if k = g then (k, f v) else (k, v)) :: mapVoxelAt f rest g := rfl

theorem getVoxel_mapVoxelAt_self (f : TsdfVoxel → TsdfVoxel) (L : Layer) (g : GlobalIndex) :
    getVoxelPtrByGlobalIndex (mapVoxelAt f L g) g =
      (getVoxelPtrByGlobalIndex L g).map f := by
  induction L with
  | nil => rfl
  | cons p rest ih =>
    obtain ⟨k, v⟩ := p
    rw [mapVoxelAt_cons]
    by_cases h : k = g
    · rw [if_pos h, getVoxel_cons, getVoxel_cons, if_pos h, if_pos h]; rfl
    · rw [if_neg h, getVoxel_cons, getVoxel_cons, if_neg h, if_neg h]; exact ih

theorem getVoxel_mapVoxelAt_ne (f : TsdfVoxel → TsdfVoxel) (L : Layer) {a g : GlobalIndex}
    (h : a ≠ g) :
    getVoxelPtrByGlobalIndex (mapVoxelAt f L a) g = getVoxelPtrByGlobalIndex L g := by
  induction L with
  | nil => rfl
  | cons p rest ih =>
    obtain ⟨k, v⟩ := p
    rw [mapVoxelAt_cons]
    by_cases hp : k = a
    · have hpg : ¬ k = g := by rw [hp]; exact h
      rw [if_pos hp, getVoxel_cons, getVoxel_cons, if_neg hpg]
      rw [hp, if_neg h]
      exact ih
    · rw [if_neg hp, getVoxel_cons, getVoxel_cons]
      by_cases hg : k = g
      · rw [if_pos hg, if_pos hg]
      · rw [if_neg hg, if_neg hg]; exact ih

theorem getVoxel_mapVoxelAt_isSome (f : TsdfVoxel → TsdfVoxel) (L : Layer) (a g : GlobalIndex) :
    (getVoxelPtrByGlobalIndex (mapVoxelAt f L a) g).isSome =
      (getVoxelPtrByGlobalIndex L g).isSome := by
  by_cases h : a = g
  · subst h; rw [getVoxel_mapVoxelAt_self]; cases getVoxelPtrByGlobalIndex L a <;> rfl
  · rw [getVoxel_mapVoxelAt_ne f L h]

theorem checkUnknownStatus_flagOnly (f : TsdfVoxel → TsdfVoxel)
    (hf : ∀ v, (f v).weight = v.weight) (o : Option TsdfVoxel) :
    checkUnknownStatus (o.map f) = checkUnknownStatus o := by
  cases o with
  | none => rfl
  | some v => simp [checkUnknownStatus, hf v]

theorem classify_flagOnly (vs : ℚ) (f : TsdfVoxel → TsdfVoxel)
    (hfw : ∀ v, (f v).weight = v.weight) (hfd : ∀ v, (f v).distance = v.distance)
    (o : Option TsdfVoxel) :
    classifyVoxel vs (o.map f) = classifyVoxel vs o := by
  cases o with
  | none => rfl
  | some v =>
    show classifyVoxel vs (some (f v)) = classifyVoxel vs (some v)
    simp only [classifyVoxel, checkUnknownStatus, hfw v, hfd v]

theorem classify_setIsObserved (vs : ℚ) (L : Layer) (a g : GlobalIndex) :
    classifyVoxel vs (getVoxelPtrByGlobalIndex (setIsObserved L a) g) =
      classifyVoxel vs (getVoxelPtrByGlobalIndex L g) := by
  by_cases h : a = g
  · subst h
    rw [setIsObserved, getVoxel_mapVoxelAt_self]
    exact classify_flagOnly vs (fun v => { v with is_observed := true })
      (fun _ => rfl) (fun _ => rfl) _
  · rw [setIsObserved, getVoxel_mapVoxelAt_ne _ _ h]

/-! ### Case lemmas for the `getScanStatus` loop body -/

theorem scanVoxel_absent (vs : ℚ) (d : ℚ → ℚ) (pos : Pt) (s : ScanState) (g : GlobalIndex)
    (hv : getVoxelPtrByGlobalIndex s.layer g = none) :
    scanVoxel vs d pos s g = (s, false) := by
  simp [scanVoxel, hv, checkUnknownStatus]

theorem scanVoxel_unknown_new (vs : ℚ) (d : ℚ → ℚ) (pos : Pt) (s : ScanState)
    (g : GlobalIndex) (v : TsdfVoxel)
    (hv : getVoxelPtrByGlobalIndex s.layer g = some v)
    (hw : v.weight < 1/1000000) (ho : v.is_observed = false) :
    scanVoxel vs d pos s g =
      ({ s with
          layer := setIsObserved s.layer g
          observed_voxels := s.observed_voxels ++ [g]
          num_unknown := s.num_unknown + 1
          gain := s.gain + gainContrib d vs pos g v }, false) := by
  have h1 : checkUnknownStatus (some v) = true := by
    simp only [checkUnknownStatus, decide_eq_true_eq]; exact hw
  simp only [scanVoxel]
  rw [hv, h1, if_pos rfl]
  simp [ho]

theorem scanVoxel_unknown_seen (vs : ℚ) (d : ℚ → ℚ) (pos : Pt) (s : ScanState)
    (g : GlobalIndex) (v : TsdfVoxel)
    (hv : getVoxelPtrByGlobalIndex s.layer g = some v)
    (hw : v.weight < 1/1000000) (ho : v.is_observed = true) :
    scanVoxel vs d pos s g = (s, false) := by
  have h1 : checkUnknownStatus (some v) = true := by
    simp only [checkUnknownStatus, decide_eq_true_eq]; exact hw
  simp only [scanVoxel]
  rw [hv, h1, if_pos rfl]
  simp [ho]

theorem scanVoxel_free (vs : ℚ) (d : ℚ → ℚ) (pos : Pt) (s : ScanState)
    (g : GlobalIndex) (v : TsdfVoxel)
    (hv : getVoxelPtrByGlobalIndex s.layer g = some v)
    (hw : ¬ v.weight < 1/1000000) (hd : v.distance > vs + 1/1000000) :
    scanVoxel vs d pos s g =
      (if v.is_observed then s
       else
        { s with
            layer := setIsObserved s.layer g
            observed_voxels := s.observed_voxels ++ [g]
            num_free := s.num_free + 1 }, false) := by
  have h1 : checkUnknownStatus (some v) = false := by
    simp only [checkUnknownStatus, decide_eq_false_iff_not]; exact hw
  simp only [scanVoxel]
  rw [hv, h1, if_neg (by simp)]
  simp [hd]
  simpa using hd

theorem scanVoxel_occupied (vs : ℚ) (d : ℚ → ℚ) (pos : Pt) (s : ScanState)
    (g : GlobalIndex) (v : TsdfVoxel)
    (hv : getVoxelPtrByGlobalIndex s.layer g = some v)
    (hw : ¬ v.weight < 1/1000000) (hd : ¬ v.distance > vs + 1/1000000) :
    scanVoxel vs d pos s g =
      (if v.is_observed then s
       else
        { s with
            layer := setIsObserved s.layer g
            observed_voxels := s.observed_voxels ++ [g]
            num_occupied := s.num_occupied + 1
            gain := s.gain + gainContrib d vs pos g v }, true) := by
  have h1 : checkUnknownStatus (some v) = false := by
    simp only [checkUnknownStatus, decide_eq_false_iff_not]; exact hw
  simp only [scanVoxel]
  rw [hv, h1, if_neg (by simp)]
  simp [hd]
  simpa using hd

theorem scanVoxel_stop_iff (vs : ℚ) (d : ℚ → ℚ) (pos : Pt) (s : ScanState) (g : GlobalIndex) :
    (scanVoxel vs d pos s g).2 = true ↔
      classifyVoxel vs (getVoxelPtrByGlobalIndex s.layer g) = .kOccupied := by
  cases hv : getVoxelPtrByGlobalIndex s.layer g with
  | none =>
    rw [scanVoxel_absent vs d pos s g hv]
    simp [classifyVoxel, checkUnknownStatus]
  | some v =>
    by_cases hw : v.weight < 1/1000000
    · have hw2 : v.weight < 1000000⁻¹ := by simpa using hw
      cases ho : v.is_observed
      · rw [scanVoxel_unknown_new vs d pos s g v hv hw ho]
        simp [classifyVoxel, checkUnknownStatus, hw2]
      · rw [scanVoxel_unknown_seen vs d pos s g v hv hw ho]
        simp [classifyVoxel, checkUnknownStatus, hw2]
    · have hw2 : ¬ v.weight < 1000000⁻¹ := by simpa using hw
      by_cases hd : v.distance > vs + 1/1000000
      · have hd2 : vs + 1000000⁻¹ < v.distance := by simpa using hd
        rw [scanVoxel_free vs d pos s g v hv hw hd]
        by_cases ho : v.is_observed <;>
          simp [classifyVoxel, checkUnknownStatus, hw2, hd2, ho]
      · have hd2 : ¬ vs + 1000000⁻¹ < v.distance := by
          intro h; exact hd (by simpa using h)
        rw [scanVoxel_occupied vs d pos s g v hv hw hd]
        by_cases ho : v.is_observed <;>
          simp [classifyVoxel, checkUnknownStatus, hw2, hd2, ho]

theorem scanVoxel_layer_cases (vs : ℚ) (d : ℚ → ℚ) (pos : Pt) (s : ScanState)
    (g : GlobalIndex) :
    (scanVoxel vs d pos s g).1.layer = s.layer ∨
      (scanVoxel vs d pos s g).1.layer = setIsObserved s.layer g := by
  cases hv : getVoxelPtrByGlobalIndex s.layer g with
  | none => rw [scanVoxel_absent vs d pos s g hv]; left; rfl
  | some v =>
    by_cases hw : v.weight < 1/1000000
    · cases ho : v.is_observed
      · rw [scanVoxel_unknown_new vs d pos s g v hv hw ho]; right; rfl
      · rw [scanVoxel_unknown_seen vs d pos s g v hv hw ho]; left; rfl
    · by_cases hd : v.distance > vs + 1/1000000
      · rw [scanVoxel_free vs d pos s g v hv hw hd]
        by_cases ho : v.is_observed
        · rw [if_pos ho]; left; rfl
        · rw [if_neg ho]; right; rfl
      · rw [scanVoxel_occupied vs d pos s g v hv hw hd]
        by_cases ho : v.is_observed
        · rw [if_pos ho]; left; rfl
        · rw [if_neg ho]; right; rfl

theorem scanVoxel_classify_preserved (vs : ℚ) (d : ℚ → ℚ) (pos : Pt) (s : ScanState)
    (g g' : GlobalIndex) :
    classifyVoxel vs (getVoxelPtrByGlobalIndex (scanVoxel vs d pos s g).1.layer g') =
      classifyVoxel vs (getVoxelPtrByGlobalIndex s.layer g') := by
  rcases scanVoxel_layer_cases vs d pos s g with h | h <;> rw [h]
  exact classify_setIsObserved vs s.layer g g'

theorem scanRay_classify_preserved (vs : ℚ) (d : ℚ → ℚ) (pos : Pt) (l : List GlobalIndex) :
    ∀ (s : ScanState) (g' : GlobalIndex),
      classifyVoxel vs (getVoxelPtrByGlobalIndex (scanRay vs d pos s l).layer g') =
        classifyVoxel vs (getVoxelPtrByGlobalIndex s.layer g') := by
  induction l with
  | nil => intro s g'; rfl
  | cons a rest ih =>
    intro s g'
    rcases hsv : scanVoxel vs d pos s a with ⟨s1, stop⟩
    have hpres : classifyVoxel vs (getVoxelPtrByGlobalIndex s1.layer g') =
        classifyVoxel vs (getVoxelPtrByGlobalIndex s.layer g') := by
      have h := scanVoxel_classify_preserved vs d pos s a g'
      rw [hsv] at h
      exact h
    rw [scanRay, hsv]
    cases stop
    · simpa using (ih s1 g').trans hpres
    · simpa using hpres

theorem classify_unknown_of_weight (vs : ℚ) (v : TsdfVoxel) (hw : v.weight < 1/1000000) :
    classifyVoxel vs (some v) = .kUnknown := by
  have h1 : checkUnknownStatus (some v) = true := by
    simp only [checkUnknownStatus, decide_eq_true_eq]; exact hw
  simp [classifyVoxel, h1]

theorem classify_occupied_elim (vs : ℚ) (o : Option TsdfVoxel)
    (h : classifyVoxel vs o = .kOccupied) :
    ∃ v, o = some v ∧ ¬ v.weight < 1/1000000 ∧ ¬ v.distance > vs + 1/1000000 := by
  cases o with
  | none => simp [classifyVoxel, checkUnknownStatus] at h
  | some v =>
    refine ⟨v, rfl, ?_, ?_⟩
    · intro hw
      rw [classify_unknown_of_weight vs v hw] at h
      exact VoxelStatus.noConfusion h
    · intro hd
      have h1 : checkUnknownStatus (some v) = false := by
        by_contra hne
        have : checkUnknownStatus (some v) = true := by
          cases hc : checkUnknownStatus (some v)
          · exact absurd hc hne
          · rfl
        simp only [checkUnknownStatus, decide_eq_true_eq] at this
        rw [classify_unknown_of_weight vs v this] at h
        exact VoxelStatus.noConfusion h
      rw [classifyVoxel, h1] at h
      simp at h
      exact absurd h (not_le.mpr (by simpa using hd))

theorem scanRay_append_no_occupied (vs : ℚ) (d : ℚ → ℚ) (pos : Pt)
    (l rest : List GlobalIndex) :
    ∀ s : ScanState,
      (∀ a ∈ l, classifyVoxel vs (getVoxelPtrByGlobalIndex s.layer a) ≠ .kOccupied) →
      scanRay vs d pos s (l ++ rest) = scanRay vs d pos (scanRay vs d pos s l) rest := by
  induction l with
  | nil => intro s _; rfl
  | cons a l' ih =>
    intro s h
    rcases hsv : scanVoxel vs d pos s a with ⟨s1, stop⟩
    cases stop
    · rw [List.cons_append, scanRay, hsv]
      simp only [if_false, Bool.false_eq_true]
      rw [show scanRay vs d pos s (a :: l') = scanRay vs d pos s1 l' by
        rw [scanRay, hsv]; simp]
      refine ih s1 (fun b hb => ?_)
      have hcp := scanVoxel_classify_preserved vs d pos s a b
      rw [hsv] at hcp
      rw [hcp]
      exact h b (List.mem_cons_of_mem a hb)
    · exfalso
      have : (scanVoxel vs d pos s a).2 = true := by rw [hsv]
      exact h a (List.mem_cons_self a l')
        ((scanVoxel_stop_iff vs d pos s a).mp this)

theorem getVoxel_foldl_setIsObserved (ks : List GlobalIndex) :
    ∀ (L : Layer) (g : GlobalIndex), g ∉ ks →
      getVoxelPtrByGlobalIndex (List.foldl setIsObserved L ks) g =
        getVoxelPtrByGlobalIndex L g := by
  induction ks with
  | nil => intro L g _; rfl
  | cons a ks' ih =>
    intro L g hg
    rw [List.foldl_cons, ih (setIsObserved L a) g (fun h => hg (List.mem_cons_of_mem a h))]
    exact getVoxel_mapVoxelAt_ne _ L (fun h => hg (h ▸ List.mem_cons_self a ks'))

theorem scanRay_unknown_list (vs : ℚ) (d : ℚ → ℚ) (pos : Pt)
    (us : List (GlobalIndex × TsdfVoxel)) :
    ∀ s : ScanState,
      (us.map Prod.fst).Nodup →
      (∀ p ∈ us, getVoxelPtrByGlobalIndex s.layer p.1 = some p.2 ∧
          p.2.weight < 1/1000000 ∧ p.2.is_observed = false) →
      scanRay vs d pos s (us.map Prod.fst) =
        { layer := List.foldl setIsObserved s.layer (us.map Prod.fst)
          observed_voxels := s.observed_voxels ++ us.map Prod.fst
          num_unknown := s.num_unknown + us.length
          num_free := s.num_free
          num_occupied := s.num_occupied
          gain := s.gain + (us.map (fun p => gainContrib d vs pos p.1 p.2)).sum } := by
  induction us with
  | nil =>
    intro s _ _
    show s = _
    cases s
    simp
  | cons p us' ih =>
    intro s hnd hus
    obtain ⟨hv, hw, ho⟩ := hus p (List.mem_cons_self p us')
    have hstep := scanVoxel_unknown_new vs d pos s p.1 p.2 hv hw ho
    rw [List.map_cons, scanRay, hstep]
    simp only [if_false, Bool.false_eq_true]
    have hnd' : (us'.map Prod.fst).Nodup := (List.nodup_cons.mp hnd).2
    have hmem : p.1 ∉ us'.map Prod.fst := (List.nodup_cons.mp hnd).1
    have hus' : ∀ q ∈ us',
        getVoxelPtrByGlobalIndex (setIsObserved s.layer p.1) q.1 = some q.2 ∧
          q.2.weight < 1/1000000 ∧ q.2.is_observed = false := by
      intro q hq
      obtain ⟨hqv, hqw, hqo⟩ := hus q (List.mem_cons_of_mem p hq)
      refine ⟨?_, hqw, hqo⟩
      rw [setIsObserved, getVoxel_mapVoxelAt_ne]
      · exact hqv
      · intro h
        exact hmem (h ▸ List.mem_map_of_mem Prod.fst hq)
    rw [ih _ hnd' hus']
    simp [List.foldl_cons, List.append_assoc, add_assoc, Nat.add_comm 1 us'.length]

/-! ### Claim C3: the three-way classification -/

/-- A concrete voxel deep inside an obstacle: positive weight, distance `-5`. -/
def voxDeepInside : TsdfVoxel :=
  { distance := -5, weight := 1, interestingness := 0, interesting_distance := 0,
    in_queue := false, is_observed := false }

/-- C3 (counterexample): with voxel size `1`, a well-weighted voxel with
distance `-5` classifies Occupied although `|distance|` is far greater than
`voxelSize + ε` — the code compares the signed distance, not its absolute
value, so "Occupied iff `|distance| ≤ voxelSize + ε`" is false. -/
theorem classify_abs_counterexample :
    classifyVoxel 1 (some voxDeepInside) = .kOccupied ∧
      ¬ |voxDeepInside.distance| ≤ 1 + 1/1000000 := by
  have h1 : checkUnknownStatus (some voxDeepInside) = false := by
    simp only [checkUnknownStatus, decide_eq_false_iff_not]
    show ¬ (1 : ℚ) < 1/1000000
    norm_num
  have hd : ¬ voxDeepInside.distance > 1 + 1/1000000 := by
    show ¬ (-5 : ℚ) > 1 + 1/1000000
    norm_num
  constructor
  · rw [classifyVoxel, h1]
    simp only [Bool.false_eq_true, if_false]
    exact if_neg hd
  · show ¬ |(-5 : ℚ)| ≤ 1 + 1/1000000
    norm_num

/-- C3 (amended): a voxel that is absent or has weight below `1e-6` is
Unknown; otherwise it is Occupied iff its (signed) distance is at most
`voxelSize + ε`, and Free iff its distance exceeds `voxelSize + ε`. -/
theorem classification_invariant (vs : ℚ) (o : Option TsdfVoxel) :
    (classifyVoxel vs o = .kUnknown ↔ checkUnknownStatus o = true) ∧
    (∀ v, o = some v → ¬ v.weight < 1/1000000 →
      ((classifyVoxel vs o = .kOccupied ↔ v.distance ≤ vs + 1/1000000) ∧
       (classifyVoxel vs o = .kFree ↔ v.distance > vs + 1/1000000))) := by
  constructor
  · constructor
    · intro h
      by_contra hne
      have h1 : checkUnknownStatus o = false := by
        cases hc : checkUnknownStatus o
        · rfl
        · exact absurd hc hne
      cases o with
      | none => exact hne rfl
      | some v =>
        rw [classifyVoxel, h1] at h
        simp at h
        by_cases hd : v.distance > vs + 1/1000000
        · rw [if_pos (by simpa using hd)] at h
          exact VoxelStatus.noConfusion h
        · rw [if_neg (fun hc => hd (by simpa using hc))] at h
          exact VoxelStatus.noConfusion h
    · intro h
      simp [classifyVoxel, h]
  · intro v ho hw
    subst ho
    have h1 : checkUnknownStatus (some v) = false := by
      simp only [checkUnknownStatus, decide_eq_false_iff_not]; exact hw
    constructor
    · constructor
      · intro h
        obtain ⟨v', hv', _, hd'⟩ := classify_occupied_elim vs (some v) h
        obtain rfl : v = v' := Option.some_inj.mp hv'
        exact not_lt.mp hd'
      · intro hd
        rw [classifyVoxel, h1]
        simp only [Bool.false_eq_true, if_false]
        rw [if_neg (fun hc => absurd (by simpa using hc) (not_lt.mpr hd))]
    · constructor
      · intro h
        by_contra hd
        rw [classifyVoxel, h1] at h
        simp only [Bool.false_eq_true, if_false] at h
        rw [if_neg (fun hc => hd (by simpa using hc))] at h
        exact VoxelStatus.noConfusion h
      · intro hd
        rw [classifyVoxel, h1]
        simp only [Bool.false_eq_true, if_false]
        rw [if_pos (by simpa using hd)]

/-- Witness for C3's amended theorem at a concrete occupied voxel. -/
theorem classification_invariant_witness :
    classifyVoxel 1 (some voxDeepInside) = .kOccupied ↔
      voxDeepInside.distance ≤ 1 + 1/1000000 :=
  ((classification_invariant 1 (some voxDeepInside)).2 voxDeepInside rfl
    (by show ¬ (1 : ℚ) < 1/1000000; norm_num)).1

/-! ### Claim C2: an Occupied voxel terminates the ray -/

/-- C2: if every index before `g` on the ray classifies non-Occupied and `g`
classifies Occupied, then the scan of the ray stops at `g` — the indices after
`g` contribute nothing — and, when the voxel at `g` is not yet observed at
that moment, the occupied counter is incremented by exactly one and the
voxel's decayed interestingness contribution is added to the gain. -/
theorem occupied_terminates_ray (vs : ℚ) (d : ℚ → ℚ) (pos : Pt) (s : ScanState)
    (g : GlobalIndex) (pre post : List GlobalIndex)
    (hpre : ∀ a ∈ pre, classifyVoxel vs (getVoxelPtrByGlobalIndex s.layer a) ≠ .kOccupied)
    (hg : classifyVoxel vs (getVoxelPtrByGlobalIndex s.layer g) = .kOccupied) :
    scanRay vs d pos s (pre ++ g :: post) = scanRay vs d pos s (pre ++ [g]) ∧
    (∀ v, getVoxelPtrByGlobalIndex (scanRay vs d pos s pre).layer g = some v →
      v.is_observed = false →
        (scanRay vs d pos s (pre ++ g :: post)).num_occupied
            = (scanRay vs d pos s pre).num_occupied + 1 ∧
        (scanRay vs d pos s (pre ++ g :: post)).gain
            = (scanRay vs d pos s pre).gain + gainContrib d vs pos g v) := by
  have happ := scanRay_append_no_occupied vs d pos pre (g :: post) s hpre
  have happ1 := scanRay_append_no_occupied vs d pos pre [g] s hpre
  have hct : classifyVoxel vs
      (getVoxelPtrByGlobalIndex (scanRay vs d pos s pre).layer g) = .kOccupied := by
    rw [scanRay_classify_preserved vs d pos pre s g]; exact hg
  obtain ⟨v0, hv0, hw0, hd0⟩ := classify_occupied_elim vs _ hct
  have hocc := scanVoxel_occupied vs d pos (scanRay vs d pos s pre) g v0 hv0 hw0 hd0
  constructor
  · rw [happ, happ1, scanRay, scanRay, hocc]
    simp
  · intro v hv hvo
    obtain rfl : v0 = v := Option.some_inj.mp (hv0.symm.trans hv)
    rw [happ, scanRay, hocc]
    rw [if_neg (by rw [hvo]; exact Bool.false_ne_true)] at hocc ⊢
    simp

/-- Witness for C2 at a one-voxel occupied layer. -/
def voxOccupiedW : TsdfVoxel :=
  { distance := 0, weight := 1, interestingness := 2, interesting_distance := 0,
    in_queue := false, is_observed := false }

/-- Concrete layer for the C2/C1 witnesses. -/
def layerOccW : Layer := [(((0 : ℤ), (0 : ℤ), (0 : ℤ)), voxOccupiedW)]

theorem occupied_terminates_ray_witness :
    scanRay 1 (fun _ => 1) ((0 : ℚ), (0 : ℚ), (0 : ℚ)) (initScanState layerOccW)
        ([] ++ ((0 : ℤ), (0 : ℤ), (0 : ℤ)) :: [((9 : ℤ), (9 : ℤ), (9 : ℤ))]) =
      scanRay 1 (fun _ => 1) ((0 : ℚ), (0 : ℚ), (0 : ℚ)) (initScanState layerOccW)
        ([] ++ [((0 : ℤ), (0 : ℤ), (0 : ℤ))]) :=
  (occupied_terminates_ray 1 (fun _ => 1) ((0 : ℚ), (0 : ℚ), (0 : ℚ))
    (initScanState layerOccW) ((0 : ℤ), (0 : ℤ), (0 : ℤ)) []
    [((9 : ℤ), (9 : ℤ), (9 : ℤ))] (by simp)
    (by
      have hlook : getVoxelPtrByGlobalIndex (initScanState layerOccW).layer
          ((0 : ℤ), (0 : ℤ), (0 : ℤ)) = some voxOccupiedW := rfl
      have h1 : checkUnknownStatus (some voxOccupiedW) = false := by
        simp only [checkUnknownStatus, decide_eq_false_iff_not]
        show ¬ (1 : ℚ) < 1/1000000
        norm_num
      have hd : ¬ voxOccupiedW.distance > 1 + 1/1000000 := by
        show ¬ (0 : ℚ) > 1 + 1/1000000
        norm_num
      rw [hlook, classifyVoxel, h1]
      simp only [Bool.false_eq_true, if_false]
      exact if_neg hd)).1

/-! ### Claim C1: unknown voxels along a ray -/

/-- C1 (counterexample): a traversed index whose voxel is absent (`nullptr`)
is classified Unknown and is not yet observed, yet the code does not mark it,
does not increment the unknown counter and adds nothing to the gain — the
`voxel != nullptr` guard inside the Unknown branch skips absent voxels
entirely, contradicting the claim that every absent-or-light voxel is counted. -/
theorem scan_absent_uncounted_counterexample :
    getVoxelPtrByGlobalIndex ([] : Layer) ((0 : ℤ), (0 : ℤ), (0 : ℤ)) = none ∧
    scanRay 1 (fun _ => 1) ((0 : ℚ), (0 : ℚ), (0 : ℚ)) (initScanState [])
        [((0 : ℤ), (0 : ℤ), (0 : ℤ))] = initScanState [] ∧
    (initScanState ([] : Layer)).num_unknown = 0 ∧
    (initScanState ([] : Layer)).observed_voxels = [] :=
  ⟨rfl, rfl, rfl, rfl⟩

/-- C1 (amended): a traversed voxel that is PRESENT with weight below epsilon
is classified Unknown and, when not yet observed, is marked observed, the
unknown counter is incremented and its decayed interestingness contribution is
added; when already observed nothing changes; an ABSENT voxel is classified
Unknown but skipped entirely (nothing counted, nothing marked); in all Unknown
cases the ray continues.  Consequently a ray through N present Unknown voxels
followed by one Occupied voxel (all distinct, none previously observed) yields
exactly N unknown + 1 occupied and the gain is the sum of the decayed
interestingness contributions of those N+1 voxels. -/
theorem unknown_scan_behavior (vs : ℚ) (d : ℚ → ℚ) (pos : Pt) :
    (∀ (s : ScanState) (g : GlobalIndex),
      getVoxelPtrByGlobalIndex s.layer g = none → scanVoxel vs d pos s g = (s, false)) ∧
    (∀ (s : ScanState) (g : GlobalIndex) (v : TsdfVoxel),
      getVoxelPtrByGlobalIndex s.layer g = some v → v.weight < 1/1000000 →
      v.is_observed = false →
      scanVoxel vs d pos s g =
        ({ s with
            layer := setIsObserved s.layer g
            observed_voxels := s.observed_voxels ++ [g]
            num_unknown := s.num_unknown + 1
            gain := s.gain + gainContrib d vs pos g v }, false)) ∧
    (∀ (s : ScanState) (g : GlobalIndex) (v : TsdfVoxel),
      getVoxelPtrByGlobalIndex s.layer g = some v → v.weight < 1/1000000 →
      v.is_observed = true → scanVoxel vs d pos s g = (s, false)) ∧
    (∀ (s : ScanState) (us : List (GlobalIndex × TsdfVoxel)) (og : GlobalIndex)
        (w : TsdfVoxel),
      (us.map Prod.fst ++ [og]).Nodup →
      (∀ p ∈ us, getVoxelPtrByGlobalIndex s.layer p.1 = some p.2 ∧
          p.2.weight < 1/1000000 ∧ p.2.is_observed = false) →
      getVoxelPtrByGlobalIndex s.layer og = some w → ¬ w.weight < 1/1000000 →
      ¬ w.distance > vs + 1/1000000 → w.is_observed = false →
      (scanRay vs d pos s (us.map Prod.fst ++ [og])).num_unknown
          = s.num_unknown + us.length ∧
      (scanRay vs d pos s (us.map Prod.fst ++ [og])).num_occupied
          = s.num_occupied + 1 ∧
      (scanRay vs d pos s (us.map Prod.fst ++ [og])).num_free = s.num_free ∧
      (scanRay vs d pos s (us.map Prod.fst ++ [og])).gain
          = s.gain + ((us.map (fun p => gainContrib d vs pos p.1 p.2)).sum
            + gainContrib d vs pos og w) ∧
      (scanRay vs d pos s (us.map Prod.fst ++ [og])).observed_voxels
          = s.observed_voxels ++ (us.map Prod.fst ++ [og])) := by
  refine ⟨fun s g hv => scanVoxel_absent vs d pos s g hv,
    fun s g v hv hw ho => scanVoxel_unknown_new vs d pos s g v hv hw ho,
    fun s g v hv hw ho => scanVoxel_unknown_seen vs d pos s g v hv hw ho,
    ?_⟩
  intro s us og w hnd hus hog hw hd hwo
  obtain ⟨hnd1, -, hdisj⟩ := List.nodup_append.mp hnd
  have hogmem : og ∉ us.map Prod.fst := fun hmem =>
    hdisj hmem (List.mem_singleton_self og)
  have hray := scanRay_unknown_list vs d pos us s hnd1 hus
  have hpre : ∀ a ∈ us.map Prod.fst,
      classifyVoxel vs (getVoxelPtrByGlobalIndex s.layer a) ≠ .kOccupied := by
    intro a ha
    obtain ⟨p, hp, rfl⟩ := List.mem_map.mp ha
    obtain ⟨hv, hw', -⟩ := hus p hp
    rw [hv, classify_unknown_of_weight vs p.2 hw']
    exact fun hcon => VoxelStatus.noConfusion hcon
  have happ := scanRay_append_no_occupied vs d pos (us.map Prod.fst) [og] s hpre
  rw [happ, hray]
  have hlook : getVoxelPtrByGlobalIndex
      (List.foldl setIsObserved s.layer (us.map Prod.fst)) og = some w := by
    rw [getVoxel_foldl_setIsObserved _ _ _ hogmem]; exact hog
  have hocc := scanVoxel_occupied vs d pos
    { layer := List.foldl setIsObserved s.layer (us.map Prod.fst)
      observed_voxels := s.observed_voxels ++ us.map Prod.fst
      num_unknown := s.num_unknown + us.length
      num_free := s.num_free
      num_occupied := s.num_occupied
      gain := s.gain + (us.map (fun p => gainContrib d vs pos p.1 p.2)).sum }
    og w hlook hw hd
  rw [if_neg (by rw [hwo]; exact Bool.false_ne_true)] at hocc
  rw [scanRay, hocc]
  refine ⟨rfl, rfl, rfl, by simp [add_assoc], by simp [List.append_assoc]⟩

/-- Concrete unknown voxel for the C1 witness. -/
def voxUnknownW : TsdfVoxel :=
  { distance := 0, weight := 0, interestingness := 3, interesting_distance := 0,
    in_queue := false, is_observed := false }

/-- Concrete layer with one unknown and one occupied voxel. -/
def layerUOW : Layer :=
  [(((0 : ℤ), (0 : ℤ), (0 : ℤ)), voxUnknownW),
   (((1 : ℤ), (0 : ℤ), (0 : ℤ)), voxOccupiedW)]

theorem unknown_scan_behavior_witness :
    (scanRay 1 (fun _ => 1) ((0 : ℚ), (0 : ℚ), (0 : ℚ)) (initScanState layerUOW)
        ([(((0 : ℤ), (0 : ℤ), (0 : ℤ)), voxUnknownW)].map Prod.fst
          ++ [((1 : ℤ), (0 : ℤ), (0 : ℤ))])).num_unknown
      = (initScanState layerUOW).num_unknown
          + [(((0 : ℤ), (0 : ℤ), (0 : ℤ)), voxUnknownW)].length ∧
    (scanRay 1 (fun _ => 1) ((0 : ℚ), (0 : ℚ), (0 : ℚ)) (initScanState layerUOW)
        ([(((0 : ℤ), (0 : ℤ), (0 : ℤ)), voxUnknownW)].map Prod.fst
          ++ [((1 : ℤ), (0 : ℤ), (0 : ℤ))])).num_occupied
      = (initScanState layerUOW).num_occupied + 1 := by
  have h := (unknown_scan_behavior 1 (fun _ => 1) ((0 : ℚ), (0 : ℚ), (0 : ℚ))).2.2.2
    (initScanState layerUOW) [(((0 : ℤ), (0 : ℤ), (0 : ℤ)), voxUnknownW)]
    ((1 : ℤ), (0 : ℤ), (0 : ℤ)) voxOccupiedW
    (by decide)
    (by
      intro p hp
      rw [List.mem_singleton] at hp
      subst hp
      exact ⟨rfl, by show (0 : ℚ) < 1/1000000; norm_num, rfl⟩)
    rfl
    (by show ¬ (1 : ℚ) < 1/1000000; norm_num)
    (by show ¬ (0 : ℚ) > 1 + 1/1000000; norm_num)
    rfl
  exact ⟨h.1, h.2.1⟩

/-! ### Claim C10: every pushed observed index refers to an existing voxel -/

theorem push_preserves_isSome (L : Layer) (g : GlobalIndex) (v : TsdfVoxel)
    (obs : List GlobalIndex) (hv : getVoxelPtrByGlobalIndex L g = some v)
    (hs : ∀ a ∈ obs, (getVoxelPtrByGlobalIndex L a).isSome = true) :
    ∀ a ∈ obs ++ [g], (getVoxelPtrByGlobalIndex (setIsObserved L g) a).isSome = true := by
  intro a ha
  rw [setIsObserved, getVoxel_mapVoxelAt_isSome]
  rcases List.mem_append.mp ha with h | h
  · exact hs a h
  · rw [List.mem_singleton.mp h, hv]; rfl

theorem scanVoxel_obs_invariant (vs : ℚ) (d : ℚ → ℚ) (pos : Pt) (s : ScanState)
    (g : GlobalIndex)
    (hs : ∀ a ∈ s.observed_voxels, (getVoxelPtrByGlobalIndex s.layer a).isSome = true) :
    ∀ a ∈ (scanVoxel vs d pos s g).1.observed_voxels,
      (getVoxelPtrByGlobalIndex (scanVoxel vs d pos s g).1.layer a).isSome = true := by
  cases hv : getVoxelPtrByGlobalIndex s.layer g with
  | none => rw [scanVoxel_absent vs d pos s g hv]; exact hs
  | some v =>
    by_cases hw : v.weight < 1/1000000
    · cases ho : v.is_observed
      · rw [scanVoxel_unknown_new vs d pos s g v hv hw ho]
        exact push_preserves_isSome s.layer g v s.observed_voxels hv hs
      · rw [scanVoxel_unknown_seen vs d pos s g v hv hw ho]; exact hs
    · by_cases hd : v.distance > vs + 1/1000000
      · rw [scanVoxel_free vs d pos s g v hv hw hd]
        by_cases ho : v.is_observed
        · rw [if_pos ho]; exact hs
        · rw [if_neg ho]
          exact push_preserves_isSome s.layer g v s.observed_voxels hv hs
      · rw [scanVoxel_occupied vs d pos s g v hv hw hd]
        by_cases ho : v.is_observed
        · rw [if_pos ho]; exact hs
        · rw [if_neg ho]
          exact push_preserves_isSome s.layer g v s.observed_voxels hv hs

theorem scanRay_obs_invariant (vs : ℚ) (d : ℚ → ℚ) (pos : Pt) (l : List GlobalIndex) :
    ∀ s : ScanState,
      (∀ a ∈ s.observed_voxels, (getVoxelPtrByGlobalIndex s.layer a).isSome = true) →
      ∀ a ∈ (scanRay vs d pos s l).observed_voxels,
        (getVoxelPtrByGlobalIndex (scanRay vs d pos s l).layer a).isSome = true := by
  induction l with
  | nil => intro s hs; exact hs
  | cons g rest ih =>
    intro s hs
    have hstep := scanVoxel_obs_invariant vs d pos s g hs
    rcases hsv : scanVoxel vs d pos s g with ⟨s1, stop⟩
    rw [hsv] at hstep
    rw [scanRay, hsv]
    cases stop
    · simpa using ih s1 hstep
    · simpa using hstep

theorem getScanStatus_obs_invariant (vs : ℚ) (d : ℚ → ℚ) (pos : Pt)
    (rays : List (List GlobalIndex)) :
    ∀ s : ScanState,
      (∀ a ∈ s.observed_voxels, (getVoxelPtrByGlobalIndex s.layer a).isSome = true) →
      ∀ a ∈ (getScanStatus vs d pos rays s).observed_voxels,
        (getVoxelPtrByGlobalIndex (getScanStatus vs d pos rays s).layer a).isSome = true := by
  induction rays with
  | nil => intro s hs; exact hs
  | cons r rest ih =>
    intro s hs
    exact ih (scanRay vs d pos s r) (scanRay_obs_invariant vs d pos r s hs)

theorem drainObserved_isSome (q : List GlobalIndex) :
    ∀ (L : Layer) (a : GlobalIndex),
      (getVoxelPtrByGlobalIndex (drainObserved L q) a).isSome =
        (getVoxelPtrByGlobalIndex L a).isSome := by
  induction q with
  | nil => intro L a; rfl
  | cons b q' ih =>
    intro L a
    show (getVoxelPtrByGlobalIndex (drainObserved (clearIsObserved L b) q') a).isSome = _
    rw [ih, clearIsObserved, getVoxel_mapVoxelAt_isSome]

/-- C10: starting from a state whose observed queue only holds existing
voxels (in particular the empty queue), every index pushed onto
`observed_voxels` by `getScanStatus` refers to a voxel present in the
resulting layer, and it stays present throughout any flag-reset drain — the
drain's unconditional dereference never hits an absent voxel. -/
theorem observed_voxels_exist (vs : ℚ) (d : ℚ → ℚ) (pos : Pt)
    (rays : List (List GlobalIndex)) (s : ScanState) (q : List GlobalIndex)
    (hs : ∀ a ∈ s.observed_voxels, (getVoxelPtrByGlobalIndex s.layer a).isSome = true) :
    (getScanStatus vs d pos rays s).observed_voxels.Forall (fun a =>
      (getVoxelPtrByGlobalIndex (getScanStatus vs d pos rays s).layer a).isSome
        = true) ∧
    (getScanStatus vs d pos rays s).observed_voxels.Forall (fun a =>
      (getVoxelPtrByGlobalIndex
        (drainObserved (getScanStatus vs d pos rays s).layer q) a).isSome = true) := by
  have h := getScanStatus_obs_invariant vs d pos rays s hs
  constructor
  · rw [List.forall_iff_forall_mem]
    exact h
  · rw [List.forall_iff_forall_mem]
    intro a ha
    rw [drainObserved_isSome]
    exact h a ha

theorem observed_voxels_exist_witness :
    (getScanStatus 1 (fun _ => 1) ((0 : ℚ), (0 : ℚ), (0 : ℚ))
        [] (initScanState layerOccW)).observed_voxels.Forall
      (fun a =>
        (getVoxelPtrByGlobalIndex
          (getScanStatus 1 (fun _ => 1) ((0 : ℚ), (0 : ℚ), (0 : ℚ))
            [] (initScanState layerOccW)).layer a).isSome = true) :=
  (observed_voxels_exist 1 (fun _ => 1) ((0 : ℚ), (0 : ℚ), (0 : ℚ))
    [] (initScanState layerOccW)
    [((0 : ℤ), (0 : ℤ), (0 : ℤ))] (by simp [initScanState])).1

/-! ### Claim C7: idempotence of gain evaluation with flag-reset in between -/

theorem mapVoxelAt_not_mem (f : TsdfVoxel → TsdfVoxel) (L : Layer) (g : GlobalIndex)
    (h : g ∉ L.map Prod.fst) : mapVoxelAt f L g = L := by
  induction L with
  | nil => rfl
  | cons p rest ih =>
    obtain ⟨k, v⟩ := p
    simp only [List.map_cons, List.mem_cons] at h
    push_neg at h
    rw [mapVoxelAt_cons, if_neg (fun hk => h.1 hk.symm), ih h.2]

theorem keys_mapVoxelAt (f : TsdfVoxel → TsdfVoxel) (L : Layer) (g : GlobalIndex) :
    (mapVoxelAt f L g).map Prod.fst = L.map Prod.fst := by
  induction L with
  | nil => rfl
  | cons p rest ih =>
    obtain ⟨k, v⟩ := p
    rw [mapVoxelAt_cons]
    by_cases h : k = g
    · rw [if_pos h]; simpa using ih
    · rw [if_neg h]; simpa using ih

theorem setIsObserved_cons (k : GlobalIndex) (v : TsdfVoxel) (rest : Layer)
    (g : GlobalIndex) :
    setIsObserved ((k, v) :: rest) g =
      (if k = g then (k, { v with is_observed := true }) else (k, v))
        :: setIsObserved rest g := rfl

theorem clearIsObserved_cons (k : GlobalIndex) (v : TsdfVoxel) (rest : Layer)
    (g : GlobalIndex) :
    clearIsObserved ((k, v) :: rest) g =
      (if k = g then (k, { v with is_observed := false }) else (k, v))
        :: clearIsObserved rest g := rfl

theorem setIsObserved_not_mem (L : Layer) (g : GlobalIndex)
    (h : g ∉ L.map Prod.fst) : setIsObserved L g = L :=
  mapVoxelAt_not_mem _ L g h

theorem clearIsObserved_not_mem (L : Layer) (g : GlobalIndex)
    (h : g ∉ L.map Prod.fst) : clearIsObserved L g = L :=
  mapVoxelAt_not_mem _ L g h

theorem clear_set_comm_ne (L : Layer) {a g : GlobalIndex} (h : a ≠ g) :
    clearIsObserved (setIsObserved L g) a = setIsObserved (clearIsObserved L a) g := by
  induction L with
  | nil => rfl
  | cons p rest ih =>
    obtain ⟨k, v⟩ := p
    by_cases hk : k = g
    · have hka : ¬ k = a := fun hc => h (hc.symm.trans hk)
      rw [setIsObserved_cons, if_pos hk, clearIsObserved_cons, if_neg hka,
        clearIsObserved_cons, if_neg hka, setIsObserved_cons, if_pos hk, ih]
    · by_cases hka : k = a
      · rw [setIsObserved_cons, if_neg hk, clearIsObserved_cons, if_pos hka,
          clearIsObserved_cons, if_pos hka, setIsObserved_cons, if_neg hk, ih]
      · rw [setIsObserved_cons, if_neg hk, clearIsObserved_cons, if_neg hka,
          clearIsObserved_cons, if_neg hka, setIsObserved_cons, if_neg hk, ih]

theorem foldl_clear_set_comm (q : List GlobalIndex) :
    ∀ (L : Layer) (g : GlobalIndex), g ∉ q →
      List.foldl clearIsObserved (setIsObserved L g) q =
        setIsObserved (List.foldl clearIsObserved L q) g := by
  induction q with
  | nil => intro L g _; rfl
  | cons b q' ih =>
    intro L g hg
    have hbg : b ≠ g := fun hc => hg (by rw [← hc]; exact List.mem_cons_self b q')
    rw [List.foldl_cons, List.foldl_cons, clear_set_comm_ne L hbg,
      ih _ g (fun hc => hg (List.mem_cons_of_mem b hc))]

theorem getVoxel_foldl_clear_notmem (q : List GlobalIndex) :
    ∀ (L : Layer) (g : GlobalIndex), g ∉ q →
      getVoxelPtrByGlobalIndex (List.foldl clearIsObserved L q) g =
        getVoxelPtrByGlobalIndex L g := by
  induction q with
  | nil => intro L g _; rfl
  | cons b q' ih =>
    intro L g hg
    rw [List.foldl_cons, ih _ g (fun hc => hg (List.mem_cons_of_mem b hc)),
      clearIsObserved, getVoxel_mapVoxelAt_ne _ L
        (fun hc => hg (by rw [← hc]; exact List.mem_cons_self b q'))]

theorem clear_set_cancel (L : Layer) (g : GlobalIndex) (v : TsdfVoxel)
    (hnd : (L.map Prod.fst).Nodup)
    (hv : getVoxelPtrByGlobalIndex L g = some v) (ho : v.is_observed = false) :
    clearIsObserved (setIsObserved L g) g = L := by
  induction L with
  | nil => rfl
  | cons p rest ih =>
    obtain ⟨k, w⟩ := p
    simp only [List.map_cons, List.nodup_cons] at hnd
    by_cases hk : k = g
    · obtain rfl : w = v := by
        rw [getVoxel_cons, if_pos hk] at hv
        exact Option.some_inj.mp hv
      subst hk
      have hrest : k ∉ rest.map Prod.fst := hnd.1
      rw [setIsObserved_cons, if_pos rfl, setIsObserved_not_mem rest k hrest,
        clearIsObserved_cons, if_pos rfl, clearIsObserved_not_mem rest k hrest]
      cases w with
      | mk d we i idist inq iso =>
        simp only at ho
        simp [ho]
    · rw [getVoxel_cons, if_neg hk] at hv
      rw [setIsObserved_cons, if_neg hk, clearIsObserved_cons, if_neg hk,
        ih hnd.2 hv]

theorem scanVoxel_ScanInv (vs : ℚ) (d : ℚ → ℚ) (pos : Pt) (L0 : Layer)
    (hnd : (L0.map Prod.fst).Nodup) (s : ScanState) (g : GlobalIndex)
    (hinv : ScanInv L0 s) : ScanInv L0 (scanVoxel vs d pos s g).1 := by
  obtain ⟨hfold, hobs⟩ := hinv
  have hpush : ∀ v, getVoxelPtrByGlobalIndex s.layer g = some v →
      v.is_observed = false →
      ScanInv L0 { layer := setIsObserved s.layer g,
                   observed_voxels := s.observed_voxels ++ [g],
                   num_unknown := (scanVoxel vs d pos s g).1.num_unknown,
                   num_free := (scanVoxel vs d pos s g).1.num_free,
                   num_occupied := (scanVoxel vs d pos s g).1.num_occupied,
                   gain := (scanVoxel vs d pos s g).1.gain } := by
    intro v hv ho
    have hne : ∀ a ∈ s.observed_voxels, a ≠ g := by
      intro a ha hag
      obtain ⟨w, hw, hwo⟩ := hobs a ha
      rw [hag, hv] at hw
      obtain rfl : v = w := Option.some_inj.mp hw
      rw [ho] at hwo
      exact Bool.false_ne_true hwo
    have hgmem : g ∉ s.observed_voxels := fun hmem => hne g hmem rfl
    constructor
    · show List.foldl clearIsObserved (setIsObserved s.layer g)
        (s.observed_voxels ++ [g]) = L0
      rw [List.foldl_append, List.foldl_cons, List.foldl_nil,
        foldl_clear_set_comm s.observed_voxels s.layer g hgmem, hfold]
      have hvL0 : getVoxelPtrByGlobalIndex L0 g = some v := by
        rw [← hfold, getVoxel_foldl_clear_notmem s.observed_voxels s.layer g hgmem]
        exact hv
      exact clear_set_cancel L0 g v hnd hvL0 ho
    · intro a ha
      rcases List.mem_append.mp ha with h | h
      · obtain ⟨w, hw, hwo⟩ := hobs a h
        refine ⟨w, ?_, hwo⟩
        show getVoxelPtrByGlobalIndex (setIsObserved s.layer g) a = some w
        rw [setIsObserved, getVoxel_mapVoxelAt_ne _ _ (fun hc => hne a h hc.symm)]
        exact hw
      · obtain rfl := List.mem_singleton.mp h
        refine ⟨{ v with is_observed := true }, ?_, rfl⟩
        show getVoxelPtrByGlobalIndex (setIsObserved s.layer a) a = _
        rw [setIsObserved, getVoxel_mapVoxelAt_self, hv]
        rfl
  cases hv : getVoxelPtrByGlobalIndex s.layer g with
  | none => rw [scanVoxel_absent vs d pos s g hv]; exact ⟨hfold, hobs⟩
  | some v =>
    by_cases hw : v.weight < 1/1000000
    · cases ho : v.is_observed
      · have h := hpush v hv ho
        rw [scanVoxel_unknown_new vs d pos s g v hv hw ho] at h ⊢
        exact h
      · rw [scanVoxel_unknown_seen vs d pos s g v hv hw ho]; exact ⟨hfold, hobs⟩
    · by_cases hd : v.distance > vs + 1/1000000
      · by_cases ho : v.is_observed
        · rw [scanVoxel_free vs d pos s g v hv hw hd, if_pos ho]; exact ⟨hfold, hobs⟩
        · have ho' : v.is_observed = false := Bool.not_eq_true _ ▸ eq_false_of_ne_true ho
          have h := hpush v hv ho'
          rw [scanVoxel_free vs d pos s g v hv hw hd, if_neg ho] at h ⊢
          exact h
      · by_cases ho : v.is_observed
        · rw [scanVoxel_occupied vs d pos s g v hv hw hd, if_pos ho]; exact ⟨hfold, hobs⟩
        · have ho' : v.is_observed = false := Bool.not_eq_true _ ▸ eq_false_of_ne_true ho
          have h := hpush v hv ho'
          rw [scanVoxel_occupied vs d pos s g v hv hw hd, if_neg ho] at h ⊢
          exact h

theorem scanRay_ScanInv (vs : ℚ) (d : ℚ → ℚ) (pos : Pt) (L0 : Layer)
    (hnd : (L0.map Prod.fst).Nodup) (l : List GlobalIndex) :
    ∀ s : ScanState, ScanInv L0 s → ScanInv L0 (scanRay vs d pos s l) := by
  induction l with
  | nil => intro s h; exact h
  | cons g rest ih =>
    intro s h
    have hstep := scanVoxel_ScanInv vs d pos L0 hnd s g h
    rcases hsv : scanVoxel vs d pos s g with ⟨s1, stop⟩
    rw [hsv] at hstep
    rw [scanRay, hsv]
    cases stop
    · simpa using ih s1 hstep
    · simpa using hstep

theorem getScanStatus_ScanInv (vs : ℚ) (d : ℚ → ℚ) (pos : Pt) (L0 : Layer)
    (hnd : (L0.map Prod.fst).Nodup) (rays : List (List GlobalIndex)) :
    ∀ s : ScanState, ScanInv L0 s → ScanInv L0 (getScanStatus vs d pos rays s) := by
  induction rays with
  | nil => intro s h; exact h
  | cons r rest ih =>
    intro s h
    exact ih (scanRay vs d pos s r) (scanRay_ScanInv vs d pos L0 hnd r s h)

/-- C7: evaluating the volumetric gain for the same pose twice against a map
with duplicate-free keys, with the observed-voxel flag-reset drain performed
between the two evaluations, gives identical gain and identical
unknown/free/occupied counts — in fact the drain restores the layer exactly,
so the second call literally repeats the first. -/
theorem gain_eval_idempotent (vs : ℚ) (d : ℚ → ℚ) (pos : Pt)
    (rays : List (List GlobalIndex)) (L0 : Layer)
    (hnd : (L0.map Prod.fst).Nodup) :
    drainObserved (getScanStatus vs d pos rays (initScanState L0)).layer
        (getScanStatus vs d pos rays (initScanState L0)).observed_voxels = L0 ∧
    (getScanStatus vs d pos rays (initScanState
        (drainObserved (getScanStatus vs d pos rays (initScanState L0)).layer
          (getScanStatus vs d pos rays (initScanState L0)).observed_voxels))).gain
      = (getScanStatus vs d pos rays (initScanState L0)).gain ∧
    (getScanStatus vs d pos rays (initScanState
        (drainObserved (getScanStatus vs d pos rays (initScanState L0)).layer
          (getScanStatus vs d pos rays (initScanState L0)).observed_voxels))).num_unknown
      = (getScanStatus vs d pos rays (initScanState L0)).num_unknown ∧
    (getScanStatus vs d pos rays (initScanState
        (drainObserved (getScanStatus vs d pos rays (initScanState L0)).layer
          (getScanStatus vs d pos rays (initScanState L0)).observed_voxels))).num_free
      = (getScanStatus vs d pos rays (initScanState L0)).num_free ∧
    (getScanStatus vs d pos rays (initScanState
        (drainObserved (getScanStatus vs d pos rays (initScanState L0)).layer
          (getScanStatus vs d pos rays (initScanState L0)).observed_voxels))).num_occupied
      = (getScanStatus vs d pos rays (initScanState L0)).num_occupied := by
  have hinv0 : ScanInv L0 (initScanState L0) := ⟨rfl, by simp [initScanState]⟩
  have hinv := getScanStatus_ScanInv vs d pos L0 hnd rays (initScanState L0) hinv0
  have hL : drainObserved (getScanStatus vs d pos rays (initScanState L0)).layer
      (getScanStatus vs d pos rays (initScanState L0)).observed_voxels = L0 := hinv.1
  refine ⟨hL, ?_, ?_, ?_, ?_⟩ <;> rw [hL]

theorem gain_eval_idempotent_witness :
    drainObserved (getScanStatus 1 (fun _ => 1) ((0 : ℚ), (0 : ℚ), (0 : ℚ))
        [[((0 : ℤ), (0 : ℤ), (0 : ℤ))]] (initScanState layerUOW)).layer
      (getScanStatus 1 (fun _ => 1) ((0 : ℚ), (0 : ℚ), (0 : ℚ))
        [[((0 : ℤ), (0 : ℤ), (0 : ℤ))]] (initScanState layerUOW)).observed_voxels
      = layerUOW :=
  (gain_eval_idempotent 1 (fun _ => 1) ((0 : ℚ), (0 : ℚ), (0 : ℚ))
    [[((0 : ℤ), (0 : ℤ), (0 : ℤ))]] layerUOW (by decide)).1

/-! ### Claims C4 and C8: the sensor frustum initialisation -/

theorem nat_ceil_pred (y : ℚ) (n : ℕ) (h : ⌈y⌉₊ = n + 1) : ⌈y - 1⌉₊ = n := by
  have hy : (n : ℚ) < y := Nat.lt_ceil.mp (h ▸ n.lt_succ_self)
  have hy2 : y ≤ (n : ℚ) + 1 := by
    have h' : ⌈y⌉₊ ≤ n + 1 := le_of_eq h
    have := Nat.ceil_le.mp h'
    push_cast at this
    linarith
  apply le_antisymm
  · rw [Nat.ceil_le]
    linarith
  · cases n with
    | zero => exact Nat.zero_le _
    | succ m =>
      have : (m : ℚ) < y - 1 := by push_cast at hy ⊢; linarith
      exact Nat.lt_ceil.mpr this

theorem angleListAux_closed (hi step : ℚ) (hstep : 0 < step) :
    ∀ (n : ℕ) (lo : ℚ), ⌈(hi - lo) / step⌉₊ = n →
      angleListAux hi step n lo =
        (List.range n).map (fun k : ℕ => lo + (k : ℚ) * step) := by
  intro n
  induction n with
  | zero => intro lo _; rfl
  | succ m ih =>
    intro lo h
    have hpos : 0 < (hi - lo) / step := by
      have h0 : 0 < ⌈(hi - lo) / step⌉₊ := h ▸ Nat.succ_pos m
      exact Nat.ceil_pos.mp h0
    have hlo : lo < hi := by
      rcases div_pos_iff.mp hpos with ⟨h1, -⟩ | ⟨-, h2⟩
      · linarith [sub_pos.mp h1]
      · linarith
    rw [angleListAux, if_pos hlo]
    have hdiv : (hi - (lo + step)) / step = (hi - lo) / step - 1 := by
      field_simp
      ring
    rw [ih (lo + step) (by rw [hdiv]; exact nat_ceil_pred _ m h),
      List.range_succ_eq_map, List.map_cons, List.map_map]
    congr 1
    · simp
    · congr 1
      funext k
      show lo + step + (k : ℚ) * step = lo + ((k + 1 : ℕ) : ℚ) * step
      push_cast
      ring

theorem angleList_closed (lo hi step : ℚ) (hstep : 0 < step) :
    angleList lo hi step =
      (List.range (stepCount lo hi step)).map (fun k : ℕ => lo + (k : ℚ) * step) := by
  rw [angleList]
  exact angleListAux_closed hi step hstep _ lo (by rw [stepCount, if_pos hstep])

theorem angleList_length (lo hi step : ℚ) (hstep : 0 < step) :
    (angleList lo hi step).length = stepCount lo hi step := by
  rw [angleList_closed lo hi step hstep, List.length_map, List.length_range]

theorem angleListAux_bounds (hi step : ℚ) (hstep : 0 < step) :
    ∀ (n : ℕ) (lo a : ℚ), a ∈ angleListAux hi step n lo → lo ≤ a ∧ a < hi := by
  intro n
  induction n with
  | zero => intro lo a ha; exact absurd ha (List.not_mem_nil a)
  | succ m ih =>
    intro lo a ha
    rw [angleListAux] at ha
    by_cases hlo : lo < hi
    · rw [if_pos hlo] at ha
      rcases List.mem_cons.mp ha with rfl | hmem
      · exact ⟨le_refl a, hlo⟩
      · obtain ⟨h1, h2⟩ := ih (lo + step) a hmem
        exact ⟨by linarith, h2⟩
    · rw [if_neg hlo] at ha
      exact absurd ha (List.not_mem_nil a)

theorem angleList_bounds (lo hi step : ℚ) (hstep : 0 < step) (a : ℚ)
    (ha : a ∈ angleList lo hi step) : lo ≤ a ∧ a < hi :=
  angleListAux_bounds hi step hstep _ lo a ha

theorem stepCount_pos (lo hi step : ℚ) (hstep : 0 < step) (hlh : lo < hi) :
    1 ≤ stepCount lo hi step := by
  rw [stepCount, if_pos hstep]
  exact Nat.ceil_pos.mpr (div_pos (sub_pos.mpr hlh) hstep)

theorem angleList_of_ge (lo hi step : ℚ) (h : hi ≤ lo) :
    angleList lo hi step = [] := by
  rw [angleList, stepCount]
  by_cases hstep : 0 < step
  · rw [if_pos hstep]
    have h0 : ⌈(hi - lo) / step⌉₊ = 0 :=
      Nat.ceil_eq_zero.mpr (div_nonpos_iff.mpr (Or.inr ⟨sub_nonpos.mpr h, hstep.le⟩))
    rw [h0]
    rfl
  · rw [if_neg hstep]
    rfl

/-- C4: for positive FOVs and resolutions, `initialize` enumerates exactly the
half-open angle grids `[-fov/2, fov/2)` stepped by the resolutions, produces
the endpoint `(maxRange, maxRange·tan dh, maxRange·tan dv)` for every pair,
stores `height · width` endpoints with `height`, `width` ≥ 1 equal to the two
loops' step counts, and every enumerated angle is of the form
`-fov/2 + k·res` and lies in the half-open interval. -/
theorem frustum_endpoints_spec (tanFn : ℚ → ℚ) (dRes : ℚ) (P : SensorParamsBase)
    (hfh : 0 < P.fov.1) (hfv : 0 < P.fov.2)
    (hrh : 0 < P.resolution.1) (hrv : 0 < P.resolution.2) :
    (initializeEndpoints tanFn dRes P).frustum_endpoints_B =
      ((angleList (-(P.fov.2 / 2)) (P.fov.2 / 2) P.resolution.2).map (fun dv =>
        (angleList (-(P.fov.1 / 2)) (P.fov.1 / 2) P.resolution.1).map (fun dh =>
          (P.max_range, P.max_range * tanFn dh, P.max_range * tanFn dv)))).flatten ∧
    (initializeEndpoints tanFn dRes P).height
        = (angleList (-(P.fov.2 / 2)) (P.fov.2 / 2) P.resolution.2).length ∧
    (initializeEndpoints tanFn dRes P).width
        = (angleList (-(P.fov.1 / 2)) (P.fov.1 / 2) P.resolution.1).length ∧
    (initializeEndpoints tanFn dRes P).frustum_endpoints_B.length
        = (initializeEndpoints tanFn dRes P).height
            * (initializeEndpoints tanFn dRes P).width ∧
    1 ≤ (initializeEndpoints tanFn dRes P).height ∧
    1 ≤ (initializeEndpoints tanFn dRes P).width ∧
    (∀ dv ∈ angleList (-(P.fov.2 / 2)) (P.fov.2 / 2) P.resolution.2,
      (∃ k : ℕ, dv = -(P.fov.2 / 2) + (k : ℚ) * P.resolution.2) ∧
        -(P.fov.2 / 2) ≤ dv ∧ dv < P.fov.2 / 2) ∧
    (∀ dh ∈ angleList (-(P.fov.1 / 2)) (P.fov.1 / 2) P.resolution.1,
      (∃ k : ℕ, dh = -(P.fov.1 / 2) + (k : ℚ) * P.resolution.1) ∧
        -(P.fov.1 / 2) ≤ dh ∧ dh < P.fov.1 / 2) := by
  have hv' : P.resolution.2 > 0 := hrv
  have hh' : P.resolution.1 > 0 := hrh
  have hlhv : -(P.fov.2 / 2) < P.fov.2 / 2 := by linarith
  have hlhh : -(P.fov.1 / 2) < P.fov.1 / 2 := by linarith
  have hhlen : 1 ≤ (angleList (-(P.fov.2 / 2)) (P.fov.2 / 2) P.resolution.2).length := by
    rw [angleList_length _ _ _ hrv]
    exact stepCount_pos _ _ _ hrv hlhv
  have hwlen : 1 ≤ (angleList (-(P.fov.1 / 2)) (P.fov.1 / 2) P.resolution.1).length := by
    rw [angleList_length _ _ _ hrh]
    exact stepCount_pos _ _ _ hrh hlhh
  have hres : initializeEndpoints tanFn dRes P =
      { frustum_endpoints_B :=
          ((angleList (-(P.fov.2 / 2)) (P.fov.2 / 2) P.resolution.2).map (fun dv =>
            (angleList (-(P.fov.1 / 2)) (P.fov.1 / 2) P.resolution.1).map (fun dh =>
              (P.max_range, P.max_range * tanFn dh, P.max_range * tanFn dv)))).flatten
        width :=
          match (angleList (-(P.fov.2 / 2)) (P.fov.2 / 2) P.resolution.2).map (fun dv =>
            (angleList (-(P.fov.1 / 2)) (P.fov.1 / 2) P.resolution.1).map (fun dh =>
              (P.max_range, P.max_range * tanFn dh, P.max_range * tanFn dv))) with
          | [] => 0
          | r :: _ => r.length
        height := (angleList (-(P.fov.2 / 2)) (P.fov.2 / 2) P.resolution.2).length } := by
    rw [initializeEndpoints]
    simp only [if_pos hv', if_pos hh']
  have hne : angleList (-(P.fov.2 / 2)) (P.fov.2 / 2) P.resolution.2 ≠ [] :=
    List.length_pos.mp (lt_of_lt_of_le zero_lt_one hhlen)
  obtain ⟨a, rest, hdvs⟩ := List.exists_cons_of_ne_nil hne
  have hw : (initializeEndpoints tanFn dRes P).width =
      (angleList (-(P.fov.1 / 2)) (P.fov.1 / 2) P.resolution.1).length := by
    rw [hres]
    show (match (angleList (-(P.fov.2 / 2)) (P.fov.2 / 2) P.resolution.2).map (fun dv =>
        (angleList (-(P.fov.1 / 2)) (P.fov.1 / 2) P.resolution.1).map (fun dh =>
          (P.max_range, P.max_range * tanFn dh, P.max_range * tanFn dv))) with
      | [] => 0
      | r :: _ => r.length) = _
    rw [hdvs]
    simp
  refine ⟨by rw [hres], by rw [hres], hw, ?_, ?_, ?_, ?_, ?_⟩
  · rw [hw, hres]
    show (List.flatten _).length = _ * _
    rw [List.length_flatten, List.map_map]
    have hmc : ((angleList (-(P.fov.2 / 2)) (P.fov.2 / 2) P.resolution.2).map
        (List.length ∘ fun dv =>
          (angleList (-(P.fov.1 / 2)) (P.fov.1 / 2) P.resolution.1).map (fun dh =>
            (P.max_range, P.max_range * tanFn dh, P.max_range * tanFn dv)))) =
        (angleList (-(P.fov.2 / 2)) (P.fov.2 / 2) P.resolution.2).map (fun _ =>
          (angleList (-(P.fov.1 / 2)) (P.fov.1 / 2) P.resolution.1).length) := by
      congr 1
      funext dv
      simp
    rw [hmc, List.map_const', List.sum_replicate, smul_eq_mul]
  · rw [hres]; exact hhlen
  · rw [hw]; exact hwlen
  · intro dv hdv
    have hb := angleList_bounds _ _ _ hrv dv hdv
    rw [angleList_closed _ _ _ hrv] at hdv
    obtain ⟨k, -, rfl⟩ := List.mem_map.mp hdv
    exact ⟨⟨k, rfl⟩, hb⟩
  · intro dh hdh
    have hb := angleList_bounds _ _ _ hrh dh hdh
    rw [angleList_closed _ _ _ hrh] at hdh
    obtain ⟨k, -, rfl⟩ := List.mem_map.mp hdh
    exact ⟨⟨k, rfl⟩, hb⟩

/-- Concrete valid sensor parameters for the C4 witness. -/
def paramsW : SensorParamsBase :=
  { min_range := 0, max_range := 2, fov := (1, 1), resolution := (1/2, 1/2) }

theorem frustum_endpoints_spec_witness :
    (initializeEndpoints id 1 paramsW).frustum_endpoints_B.length
        = (initializeEndpoints id 1 paramsW).height
            * (initializeEndpoints id 1 paramsW).width ∧
    1 ≤ (initializeEndpoints id 1 paramsW).height ∧
    1 ≤ (initializeEndpoints id 1 paramsW).width := by
  have h := frustum_endpoints_spec id 1 paramsW
    (by show (0 : ℚ) < 1; norm_num) (by show (0 : ℚ) < 1; norm_num)
    (by show (0 : ℚ) < 1/2; norm_num) (by show (0 : ℚ) < 1/2; norm_num)
  exact ⟨h.2.2.2.1, h.2.2.2.2.1, h.2.2.2.2.2.1⟩

/-- Unfolding equation for `initializeEndpoints`. -/
theorem initializeEndpoints_def (tanFn : ℚ → ℚ) (dRes : ℚ) (P : SensorParamsBase) :
    initializeEndpoints tanFn dRes P =
      { frustum_endpoints_B :=
          ((angleList (-(P.fov.2 / 2)) (P.fov.2 / 2)
              (if P.resolution.2 > 0 then P.resolution.2 else dRes)).map (fun dv =>
            (angleList (-(P.fov.1 / 2)) (P.fov.1 / 2)
                (if P.resolution.1 > 0 then P.resolution.1 else dRes)).map (fun dh =>
              (P.max_range, P.max_range * tanFn dh, P.max_range * tanFn dv)))).flatten
        width :=
          match (angleList (-(P.fov.2 / 2)) (P.fov.2 / 2)
              (if P.resolution.2 > 0 then P.resolution.2 else dRes)).map (fun dv =>
            (angleList (-(P.fov.1 / 2)) (P.fov.1 / 2)
                (if P.resolution.1 > 0 then P.resolution.1 else dRes)).map (fun dh =>
              (P.max_range, P.max_range * tanFn dh, P.max_range * tanFn dv))) with
          | [] => 0
          | r :: _ => r.length
        height := (angleList (-(P.fov.2 / 2)) (P.fov.2 / 2)
            (if P.resolution.2 > 0 then P.resolution.2 else dRes)).length } := rfl

/-- Concrete malformed sensor parameters (zero resolution) for C8. -/
def paramsZeroRes : SensorParamsBase :=
  { min_range := 0, max_range := 1, fov := (1, 1), resolution := (0, 0) }

/-- C8 (counterexample): with both resolution components zero — a malformed
configuration per the claim — `initialize` does not fail: it silently
substitutes the default resolution (here abstracted as the `defaultRes`
argument, `1°` in the source) and produces the same non-trivial frustum as an
explicitly configured resolution, with two full rows of endpoints. -/
theorem initialize_accepts_zero_resolution :
    initializeEndpoints id (1/2) paramsZeroRes =
      initializeEndpoints id (1/2) { paramsZeroRes with resolution := (1/2, 1/2) } ∧
    (initializeEndpoints id (1/2) paramsZeroRes).height = 2 := by
  have h2' : ¬ paramsZeroRes.resolution.2 > 0 := by show ¬ (0 : ℚ) > 0; norm_num
  have h1' : ¬ paramsZeroRes.resolution.1 > 0 := by show ¬ (0 : ℚ) > 0; norm_num
  constructor
  · rw [initializeEndpoints_def, initializeEndpoints_def, if_neg h2', if_neg h1']
    norm_num [paramsZeroRes]
  · rw [initializeEndpoints_def]
    show (angleList (-(paramsZeroRes.fov.2 / 2)) (paramsZeroRes.fov.2 / 2)
        (if paramsZeroRes.resolution.2 > 0 then paramsZeroRes.resolution.2 else 1/2)).length = 2
    rw [if_neg h2', angleList_length _ _ _ (by norm_num), stepCount,
      if_pos (by norm_num : (0 : ℚ) < 1/2)]
    show ⌈((1 : ℚ)/2 - -(1/2)) / (1/2)⌉₊ = 2
    norm_num

/-- C8 (amended): `initialize` never signals a configuration error: a
non-positive resolution component is silently replaced by the default
resolution (1° in the source), so a zero/negative-resolution configuration
produces exactly the frustum of the default-resolution configuration; and a
non-positive vertical FOV silently yields an empty endpoint set with
`height = 0` rather than an error. -/
theorem initialize_substitutes_default (tanFn : ℚ → ℚ) (dRes : ℚ)
    (P : SensorParamsBase) (h1 : P.resolution.1 ≤ 0) (h2 : P.resolution.2 ≤ 0) :
    initializeEndpoints tanFn dRes P =
      initializeEndpoints tanFn dRes { P with resolution := (dRes, dRes) } ∧
    (P.fov.2 ≤ 0 →
      (initializeEndpoints tanFn dRes P).frustum_endpoints_B = [] ∧
      (initializeEndpoints tanFn dRes P).height = 0) := by
  have h2' : ¬ P.resolution.2 > 0 := not_lt.mpr h2
  have h1' : ¬ P.resolution.1 > 0 := not_lt.mpr h1
  have g2 : ({ P with resolution := (dRes, dRes) } : SensorParamsBase).resolution.2
      = dRes := rfl
  have g1 : ({ P with resolution := (dRes, dRes) } : SensorParamsBase).resolution.1
      = dRes := rfl
  constructor
  · rw [initializeEndpoints_def, initializeEndpoints_def, if_neg h2', if_neg h1',
      g2, g1]
    simp only [ite_self]
  · intro hfov
    have hdvs : angleList (-(P.fov.2 / 2)) (P.fov.2 / 2)
        (if P.resolution.2 > 0 then P.resolution.2 else dRes) = [] :=
      angleList_of_ge _ _ _ (by linarith)
    rw [initializeEndpoints_def]
    constructor
    · show ((angleList (-(P.fov.2 / 2)) (P.fov.2 / 2)
          (if P.resolution.2 > 0 then P.resolution.2 else dRes)).map _).flatten = []
      rw [hdvs]
      rfl
    · show (angleList (-(P.fov.2 / 2)) (P.fov.2 / 2)
          (if P.resolution.2 > 0 then P.resolution.2 else dRes)).length = 0
      rw [hdvs]
      rfl

theorem initialize_substitutes_default_witness :
    initializeEndpoints id (1/3) paramsZeroRes =
      initializeEndpoints id (1/3) { paramsZeroRes with resolution := (1/3, 1/3) } :=
  (initialize_substitutes_default id (1/3) paramsZeroRes
    (by show (0 : ℚ) ≤ 0; norm_num) (by show (0 : ℚ) ≤ 0; norm_num)).1

/-! ### Claims C5 and C6: interestingness diffusion -/

theorem setInQueue_cons (k : GlobalIndex) (v : TsdfVoxel) (rest : Layer) (g : GlobalIndex) :
    setInQueue ((k, v) :: rest) g =
      (if k = g then (k, { v with in_queue := true }) else (k, v)) :: setInQueue rest g := rfl

theorem updateInteresting_cons (k : GlobalIndex) (v : TsdfVoxel) (rest : Layer)
    (g : GlobalIndex) (d : ℤ) (i : ℚ) :
    updateInteresting ((k, v) :: rest) g d i =
      (if k = g then (k, { v with interesting_distance := d, interestingness := i })
       else (k, v)) :: updateInteresting rest g d i := rfl

theorem filterFalse_updateInteresting (g : GlobalIndex) (d : ℤ) (i : ℚ) :
    ∀ L : Layer,
      ((updateInteresting L g d i).filter (fun p => !p.2.in_queue)).length =
        (L.filter (fun p => !p.2.in_queue)).length := by
  intro L
  induction L with
  | nil => rfl
  | cons p rest ih =>
    obtain ⟨k, w⟩ := p
    rw [updateInteresting_cons]
    by_cases hk : k = g
    · rw [if_pos hk]
      cases hq : w.in_queue <;>
        simp [List.filter_cons, hq, ih]
    · rw [if_neg hk]
      cases hq : w.in_queue <;>
        simp [List.filter_cons, hq, ih]

theorem filterFalse_setInQueue_le (g : GlobalIndex) :
    ∀ L : Layer,
      ((setInQueue L g).filter (fun p => !p.2.in_queue)).length ≤
        (L.filter (fun p => !p.2.in_queue)).length := by
  intro L
  induction L with
  | nil => exact le_refl 0
  | cons p rest ih =>
    obtain ⟨k, w⟩ := p
    rw [setInQueue_cons]
    by_cases hk : k = g
    · rw [if_pos hk]
      cases hq : w.in_queue <;>
        simp [List.filter_cons, hq] <;> omega
    · rw [if_neg hk]
      cases hq : w.in_queue <;>
        simp [List.filter_cons, hq] <;> omega

theorem filterFalse_setInQueue_lt (g : GlobalIndex) (v : TsdfVoxel) :
    ∀ L : Layer, getVoxelPtrByGlobalIndex L g = some v → v.in_queue = false →
      ((setInQueue L g).filter (fun p => !p.2.in_queue)).length <
        (L.filter (fun p => !p.2.in_queue)).length := by
  intro L
  induction L with
  | nil => intro hv _; exact absurd hv (by simp [getVoxelPtrByGlobalIndex])
  | cons p rest ih =>
    obtain ⟨k, w⟩ := p
    intro hv hq
    rw [setInQueue_cons]
    by_cases hk : k = g
    · obtain rfl : w = v := by
        rw [getVoxel_cons, if_pos hk] at hv
        exact Option.some_inj.mp hv
      rw [if_pos hk]
      simp only [List.filter_cons, hq]
      simp only [Bool.not_false, Bool.not_true, if_pos, if_neg]
      have hle := filterFalse_setInQueue_le g rest
      simp
      omega
    · rw [getVoxel_cons, if_neg hk] at hv
      rw [if_neg hk]
      have := ih hv hq
      cases hjq : w.in_queue <;> simp [List.filter_cons, hjq] <;> omega

theorem processNeighbor_measure_le (dl dd : ℚ) (parent : TsdfVoxel)
    (st : SpreadState) (n : GlobalIndex) :
    spreadMeasure (processNeighbor dl dd parent st n) ≤ spreadMeasure st := by
  cases hv : getVoxelPtrByGlobalIndex st.layer n with
  | none => simp [processNeighbor, hv, le_refl]
  | some nv =>
    by_cases hcu : checkUnknownStatus (some nv) = true
    · simp only [processNeighbor, hv, hcu, if_true]
      by_cases hupd : nv.interesting_distance > parent.interesting_distance + 1
      · simp only [if_pos hupd]
        have hlay : getVoxelPtrByGlobalIndex
            (updateInteresting st.layer n (parent.interesting_distance + 1)
              (dl * parent.interestingness)) n =
            some (neighborUpdated dl parent nv) := by
          rw [updateInteresting, getVoxel_mapVoxelAt_self, hv, neighborUpdated,
            if_pos hupd]
          rfl
        by_cases hguard : (!(neighborUpdated dl parent nv).in_queue) = true ∧
            ((neighborUpdated dl parent nv).interesting_distance : ℚ) < dd
        · rw [if_pos hguard]
          have hqf : (neighborUpdated dl parent nv).in_queue = false := by
            simpa using hguard.1
          have hlt := filterFalse_setInQueue_lt n (neighborUpdated dl parent nv) _
            hlay hqf
          show (st.queue ++ [n]).length + _ ≤ st.queue.length + _
          rw [List.length_append]
          rw [filterFalse_updateInteresting n (parent.interesting_distance + 1)
            (dl * parent.interestingness) st.layer] at hlt
          simp at hlt ⊢
          omega
        · rw [if_neg hguard]
          show st.queue.length + _ ≤ st.queue.length + _
          rw [filterFalse_updateInteresting]
      · simp only [if_neg hupd]
        have hlay : getVoxelPtrByGlobalIndex st.layer n =
            some (neighborUpdated dl parent nv) := by
          rw [neighborUpdated, if_neg hupd]
          exact hv
        by_cases hguard : (!(neighborUpdated dl parent nv).in_queue) = true ∧
            ((neighborUpdated dl parent nv).interesting_distance : ℚ) < dd
        · rw [if_pos hguard]
          have hqf : (neighborUpdated dl parent nv).in_queue = false := by
            simpa using hguard.1
          have hlt := filterFalse_setInQueue_lt n (neighborUpdated dl parent nv) _
            hlay hqf
          show (st.queue ++ [n]).length + _ ≤ st.queue.length + _
          rw [List.length_append]
          simp at hlt ⊢
          omega
        · rw [if_neg hguard]
    · have hcu' : checkUnknownStatus (some nv) = false := by
        cases hc : checkUnknownStatus (some nv)
        · rfl
        · exact absurd hc hcu
      simp [processNeighbor, hv, hcu', le_refl]

theorem foldl_processNeighbor_measure_le (dl dd : ℚ) (parent : TsdfVoxel)
    (ns : List GlobalIndex) :
    ∀ st : SpreadState,
      spreadMeasure (ns.foldl (processNeighbor dl dd parent) st) ≤ spreadMeasure st := by
  induction ns with
  | nil => intro st; exact le_refl _
  | cons n ns' ih =>
    intro st
    rw [List.foldl_cons]
    exact le_trans (ih _) (processNeighbor_measure_le dl dd parent st n)

theorem processParent_measure_lt (dl dd : ℚ) (st : SpreadState)
    (h : st.queue ≠ []) :
    spreadMeasure (processParent dl dd st) < spreadMeasure st := by
  rcases hq : st.queue with - | ⟨g, rest⟩
  · exact absurd hq h
  · have hm0 : spreadMeasure { st with queue := rest } < spreadMeasure st := by
      show rest.length + _ < st.queue.length + _
      rw [hq]
      simp
    rw [processParent, hq]
    show spreadMeasure (match getVoxelPtrByGlobalIndex st.layer g with
        | none => { st with queue := rest }
        | some parent =>
          List.foldl (processNeighbor dl dd parent) { st with queue := rest }
            (neighbors26 g)) < spreadMeasure st
    cases hp : getVoxelPtrByGlobalIndex st.layer g with
    | none => exact hm0
    | some parent =>
      exact lt_of_le_of_lt
        (foldl_processNeighbor_measure_le dl dd parent (neighbors26 g)
          { st with queue := rest }) hm0

theorem spreadAux_queue_empty (dl dd : ℚ) :
    ∀ (n : ℕ) (st : SpreadState), spreadMeasure st ≤ n →
      (spreadAux dl dd n st).queue = [] := by
  intro n
  induction n with
  | zero =>
    intro st hm
    have : st.queue.length = 0 := by
      have : st.queue.length + (st.layer.filter (fun p => !p.2.in_queue)).length ≤ 0 := hm
      omega
    exact List.length_eq_zero.mp this
  | succ m ih =>
    intro st hm
    rw [spreadAux]
    by_cases hq : st.queue.isEmpty
    · rw [if_pos hq]
      exact List.isEmpty_iff.mp hq
    · rw [if_neg hq]
      have hne : st.queue ≠ [] := fun hc => hq (by rw [hc]; rfl)
      have hlt := processParent_measure_lt dl dd st hne
      exact ih _ (by omega)

theorem spreadAux_stable (dl dd : ℚ) :
    ∀ (n k : ℕ) (st : SpreadState), (spreadAux dl dd n st).queue = [] →
      spreadAux dl dd (n + k) st = spreadAux dl dd n st := by
  intro n
  induction n with
  | zero =>
    intro k st hst
    have hq : st.queue = [] := hst
    induction k with
    | zero => rfl
    | succ j jh =>
      show spreadAux dl dd (0 + (j + 1)) st = spreadAux dl dd 0 st
      have he : 0 + (j + 1) = j + 1 := by omega
      rw [he]
      show spreadAux dl dd (j + 1) st = st
      rw [spreadAux, if_pos (by rw [hq]; rfl)]
  | succ m ih =>
    intro k st hst
    have he : m + 1 + k = (m + k) + 1 := by omega
    by_cases hq : st.queue.isEmpty
    · have h1 : spreadAux dl dd (m + 1) st = st := by
        rw [spreadAux, if_pos hq]
      have h2 : spreadAux dl dd (m + 1 + k) st = st := by
        rw [he, spreadAux, if_pos hq]
      rw [h1, h2]
    · have h1 : spreadAux dl dd (m + 1) st =
          spreadAux dl dd m (processParent dl dd st) := by
        rw [spreadAux, if_neg hq]
      have h2 : spreadAux dl dd (m + 1 + k) st =
          spreadAux dl dd (m + k) (processParent dl dd st) := by
        rw [he, spreadAux, if_neg hq]
      rw [h1] at hst
      rw [h1, h2]
      exact ih k _ hst

/-- C6: `spreadInterestingness` terminates on every input: the FIFO loop
empties its frontier within `spreadMeasure` iterations (queue length plus the
number of voxels whose `in_queue` flag is still clear — each pop removes one
queue entry and each push permanently sets a clear `in_queue` flag), and
giving the loop any more fuel changes nothing. -/
theorem spreadInterestingness_terminates (dl dd : ℚ) (st : SpreadState) :
    (spreadInterestingness dl dd st).queue = [] ∧
    ∀ extra : ℕ, spreadAux dl dd (spreadMeasure st + extra) st =
      spreadInterestingness dl dd st := by
  have hempty := spreadAux_queue_empty dl dd (spreadMeasure st) st (le_refl _)
  exact ⟨hempty, fun extra => spreadAux_stable dl dd (spreadMeasure st) extra st hempty⟩

theorem processNeighbor_log (dl dd : ℚ) (parent : TsdfVoxel) (st : SpreadState)
    (n : GlobalIndex)
    (h : ∀ e ∈ st.pushLog, (e.2.1 : ℚ) < dd ∧ e.2.2 = false) :
    ∀ e ∈ (processNeighbor dl dd parent st n).pushLog,
      (e.2.1 : ℚ) < dd ∧ e.2.2 = false := by
  cases hv : getVoxelPtrByGlobalIndex st.layer n with
  | none => simpa [processNeighbor, hv] using h
  | some nv =>
    by_cases hcu : checkUnknownStatus (some nv) = true
    · simp only [processNeighbor, hv, hcu, if_true]
      by_cases hguard : (!(neighborUpdated dl parent nv).in_queue) = true ∧
          ((neighborUpdated dl parent nv).interesting_distance : ℚ) < dd
      · rw [if_pos hguard]
        intro e he
        rcases List.mem_append.mp he with hold | hnew
        · exact h e hold
        · obtain rfl := List.mem_singleton.mp hnew
          exact ⟨hguard.2, by simpa using hguard.1⟩
      · rw [if_neg hguard]
        exact h
    · have hcu' : checkUnknownStatus (some nv) = false := by
        cases hc : checkUnknownStatus (some nv)
        · rfl
        · exact absurd hc hcu
      simpa [processNeighbor, hv, hcu'] using h

theorem foldl_processNeighbor_log (dl dd : ℚ) (parent : TsdfVoxel)
    (ns : List GlobalIndex) :
    ∀ st : SpreadState,
      (∀ e ∈ st.pushLog, (e.2.1 : ℚ) < dd ∧ e.2.2 = false) →
      ∀ e ∈ (ns.foldl (processNeighbor dl dd parent) st).pushLog,
        (e.2.1 : ℚ) < dd ∧ e.2.2 = false := by
  induction ns with
  | nil => intro st h; exact h
  | cons n ns' ih =>
    intro st h
    rw [List.foldl_cons]
    exact ih _ (processNeighbor_log dl dd parent st n h)

theorem processParent_log (dl dd : ℚ) (st : SpreadState)
    (h : ∀ e ∈ st.pushLog, (e.2.1 : ℚ) < dd ∧ e.2.2 = false) :
    ∀ e ∈ (processParent dl dd st).pushLog, (e.2.1 : ℚ) < dd ∧ e.2.2 = false := by
  rcases hq : st.queue with - | ⟨g, rest⟩
  · rw [processParent, hq]
    exact h
  · rw [processParent, hq]
    show ∀ e ∈ (match getVoxelPtrByGlobalIndex st.layer g with
        | none => { st with queue := rest }
        | some parent =>
          List.foldl (processNeighbor dl dd parent) { st with queue := rest }
            (neighbors26 g)).pushLog, (e.2.1 : ℚ) < dd ∧ e.2.2 = false
    cases hp : getVoxelPtrByGlobalIndex st.layer g with
    | none => exact h
    | some parent => exact foldl_processNeighbor_log dl dd parent (neighbors26 g) _ h

theorem spreadAux_log (dl dd : ℚ) :
    ∀ (n : ℕ) (st : SpreadState),
      (∀ e ∈ st.pushLog, (e.2.1 : ℚ) < dd ∧ e.2.2 = false) →
      ∀ e ∈ (spreadAux dl dd n st).pushLog, (e.2.1 : ℚ) < dd ∧ e.2.2 = false := by
  intro n
  induction n with
  | zero => intro st h; exact h
  | succ m ih =>
    intro st h
    rw [spreadAux]
    by_cases hq : st.queue.isEmpty
    · rw [if_pos hq]; exact h
    · rw [if_neg hq]
      exact ih _ (processParent_log dl dd st h)

/-- C5: during any run of `spreadInterestingness` started with an empty push
log, every push performed by the diffusion records, at the moment of the push,
an `interesting_distance` strictly below `decay_distance_` and an `in_queue`
flag that is still false — no voxel at or beyond the cutoff, and no voxel
already queued, is ever enqueued by the loop. -/
theorem diffusion_enqueue_guarded (dl dd : ℚ) (st : SpreadState)
    (h0 : st.pushLog = []) :
    (spreadInterestingness dl dd st).pushLog.Forall
      (fun e => (e.2.1 : ℚ) < dd ∧ e.2.2 = false) := by
  rw [List.forall_iff_forall_mem]
  apply spreadAux_log
  rw [h0]
  intro e he
  exact absurd he (List.not_mem_nil e)

/-- Concrete diffusion state for the C5 witness. -/
def spreadStateW : SpreadState :=
  { layer :=
      [(((0 : ℤ), (0 : ℤ), (0 : ℤ)),
        { distance := 0, weight := 1, interestingness := 1, interesting_distance := 0,
          in_queue := true, is_observed := false })]
    queue := []
    pushLog := [] }

theorem diffusion_enqueue_guarded_witness :
    (spreadInterestingness (1/2) 5 spreadStateW).pushLog.Forall
      (fun e => (e.2.1 : ℚ) < 5 ∧ e.2.2 = false) :=
  diffusion_enqueue_guarded (1/2) 5 spreadStateW rfl

/-! ### Claim C9: baseline library evaluation samples timesteps 2, 6, 10, 14 -/

/-- C9: for every trajectory-library entry, the baseline callback's inner loop
evaluates the per-pose gain only at timesteps 2, 6, 10 and 14 of the rotated
pose sequence — each state built from the rotated position with yaw equal to
the robot yaw plus the stored entry yaw at that timestep — sums exactly those
four gains, and never evaluates any of the remaining 11 of the 15 timesteps. -/
theorem baseline_gain_timesteps (G : StateVec → ℚ) (rotPos : ℕ → Pt)
    (robotYaw : ℚ) (storedYaw : ℕ → ℚ) :
    (baselineEntryGain G rotPos robotYaw storedYaw).1 =
      G (baselineStateVec rotPos robotYaw storedYaw 2) +
      G (baselineStateVec rotPos robotYaw storedYaw 6) +
      G (baselineStateVec rotPos robotYaw storedYaw 10) +
      G (baselineStateVec rotPos robotYaw storedYaw 14) ∧
    (baselineEntryGain G rotPos robotYaw storedYaw).2 = [2, 6, 10, 14] ∧
    (∀ t : ℕ, t ∉ ([2, 6, 10, 14] : List ℕ) →
      t ∉ (baselineEntryGain G rotPos robotYaw storedYaw).2) := by
  have h : baselineEntryGain G rotPos robotYaw storedYaw =
      (0 + G (baselineStateVec rotPos robotYaw storedYaw 2) +
        G (baselineStateVec rotPos robotYaw storedYaw 6) +
        G (baselineStateVec rotPos robotYaw storedYaw 10) +
        G (baselineStateVec rotPos robotYaw storedYaw 14), [2, 6, 10, 14]) := rfl
  refine ⟨?_, ?_, ?_⟩
  · rw [h, zero_add]
  · rw [h]
  · intro t ht
    rw [h]
    exact ht

theorem baseline_gain_timesteps_witness :
    (0 : ℕ) ∉ (baselineEntryGain (fun _ => 1)
      (fun _ => ((0 : ℚ), (0 : ℚ), (0 : ℚ))) 0 (fun _ => 0)).2 :=
  (baseline_gain_timesteps (fun _ => 1) (fun _ => ((0 : ℚ), (0 : ℚ), (0 : ℚ)))
    0 (fun _ => 0)).2.2 0 (by decide)

end Voxblox
